import Mathlib

/-!
# Github-Tracks-Backend: the repository aggregator

A shallow embedding of `src/services/github.service.js` (class `GithubData`) and of
`src/controllers/github.controller.js` (`getRepositoryData`), together with the pieces of the
JavaScript runtime the service relies on: plain objects used as counting maps (property
order of `Object.entries`, properties inherited from `Object.prototype`), `Array.prototype.sort`
with a comparator, `String.prototype.split`, and `Date.prototype.toISOString`.
-/

namespace GithubTracks

/-! ## Plain objects used as counting maps -/

/-- The values the counting accumulators can hold: a number (counts are naturals, far below
`2^53`, where `+ 1` is exact) or a string. -/
inductive JsVal where
  | num (n : Nat)
  | str (s : String)
  deriving DecidableEq, Repr

/-- The own enumerable string-keyed properties of a plain object, in creation order. -/
abbrev JsObj := List (String × JsVal)

/-- The methods every object literal inherits from `Object.prototype`. -/
def objectPrototypeMethods : List String :=
  ["constructor", "__defineGetter__", "__defineSetter__", "hasOwnProperty",
   "__lookupGetter__", "__lookupSetter__", "isPrototypeOf", "propertyIsEnumerable",
   "toString", "valueOf", "toLocaleString"]

/-- All property names an empty object literal answers to: the inherited methods and the
accessor `__proto__`. -/
def objectPrototypeKeys : List String := "__proto__" :: objectPrototypeMethods

/-- The string `x + 1` starts with when `x` is the value an empty object literal inherits
under `key`: the source text of a built-in function (as printed by V8) or, for `__proto__`,
the text of `Object.prototype` itself. `none` when nothing is inherited under `key`. -/
def inheritedText (key : String) : Option String :=
  if key = "__proto__" then some "[object Object]"
  else if key = "constructor" then some "function Object() \x7b [native code] \x7d"
  else if key ∈ objectPrototypeMethods then
    some ("function " ++ key ++ "() \x7b [native code] \x7d")
  else none

/-- The value of `(acc[key] || 0) + 1`. An own number `n` gives `n + 1` (for the falsy `0`
this is `0 + 1`); an own string is concatenated with `"1"` unless it is the falsy `""`;
an inherited function or object is converted to its text and concatenated; an absent
property gives `1`. -/
def incremented (acc : JsObj) (key : String) : JsVal :=
  match acc.lookup key with
  | some (JsVal.num n) => JsVal.num (n + 1)
  | some (JsVal.str s) => if s = "" then JsVal.num 1 else JsVal.str (s ++ "1")
  | none =>
    match inheritedText key with
    | some t => JsVal.str (t ++ "1")
    | none => JsVal.num 1

/-- The assignment `acc[key] = v` for a primitive `v`: an own property keeps its place and
takes the new value; `__proto__` reaches the inherited setter, which ignores primitives;
any other key becomes a new own property, created last. -/
def assign (acc : JsObj) (key : String) (v : JsVal) : JsObj :=
  if key ∈ acc.map Prod.fst then
    acc.map (fun p => if p.1 = key then (p.1, v) else p)
  else if key = "__proto__" then acc
  else acc ++ [(key, v)]

/-- One step of the reducers: `acc[key] = (acc[key] || 0) + 1; return acc`. -/
def bump (acc : JsObj) (key : String) : JsObj :=
  assign acc key (incremented acc key)

/-- Whether the characters are a canonical decimal numeral: `0`, or digits without a
leading zero. -/
def isCanonicalNumeral : List Char → Bool
  | [] => false
  | [c] => c.isDigit
  | c :: cs => c.isDigit && c != '0' && cs.all Char.isDigit

/-- The number written by a list of decimal digits. -/
def numeralValue (cs : List Char) : Nat :=
  cs.foldl (fun acc c => 10 * acc + (c.toNat - '0'.toNat)) 0

/-- Whether a property key is an array index: a canonical numeral below `2^32 - 1`. -/
def isArrayIndex (key : String) : Bool :=
  isCanonicalNumeral key.data && decide (numeralValue key.data < 4294967295)

/-- The numeric value of the key of a property whose key is an array index. -/
def indexValue {β : Type} (p : String × β) : Nat := numeralValue p.1.data

/-- The result of `Object.entries(o)` for the own properties `o` listed in creation order:
the array-index keys in ascending numeric order, then the other keys in creation order. -/
def objectEntries {β : Type} (o : List (String × β)) : List (String × β) :=
  (o.filter (fun p => isArrayIndex p.1)).insertionSort (fun a b => indexValue a ≤ indexValue b)
    ++ o.filter (fun p => !isArrayIndex p.1)

/-! ## Sorting with the comparator `([, a], [, b]) => b - a` -/

/-- The number the sort reads from the comparator called on `x` and `y`: the count of `y`
minus the count of `x`, and `0` for the `NaN` that a text among the two counts produces.
Texts only arise here as concatenations that start with a non-numeric text. -/
def compareEntries (x y : String × JsVal) : Int :=
  match x.2, y.2 with
  | JsVal.num a, JsVal.num b => (b : Int) - (a : Int)
  | _, _ => 0

/-- Whether the comparator called on `x` and `y` gives a result that is not positive, so
that `x` may stay before `y`. -/
def staysBefore (x y : String × JsVal) : Prop :=
  match x.2, y.2 with
  | JsVal.num a, JsVal.num b => b ≤ a
  | _, _ => True

instance staysBeforeDecidable : DecidableRel staysBefore := fun x y => by
  unfold staysBefore
  split <;> infer_instance

/-- Whether every count is a number: the comparator is then a consistent order. -/
def allNumeric (l : List (String × JsVal)) : Bool :=
  l.all (fun p => match p.2 with
    | JsVal.num _ => true
    | JsVal.str _ => false)

/-- How many elements after `prev` continue the run the engine has started: in a
descending run each element compares below its predecessor, in the other case none
does. -/
def extendRun (descending : Bool) :
    (String × JsVal) → List (String × JsVal) → Nat
  | _, [] => 0
  | prev, cur :: rest =>
    if (if descending then compareEntries cur prev < 0 else 0 ≤ compareEntries cur prev)
    then extendRun descending cur rest + 1
    else 0

/-- The step `CountAndMakeRun` of the engine: the length of the run at the head of the
array, and the array with that run reversed when it is a descending one. -/
def countAndMakeRun (l : List (String × JsVal)) : Nat × List (String × JsVal) :=
  match l with
  | a :: b :: rest =>
    let descending := decide (compareEntries b a < 0)
    let n := extendRun descending b rest + 2
    (n, if descending then (l.take n).reverse ++ l.drop n else l)
  | _ => (l.length, l)

/-- The binary search of `BinaryInsertionSort` for the place of `pivot` between `left` and
`right`; `steps` bounds the halvings. -/
def searchPlace (pivot : String × JsVal) (a : List (String × JsVal)) : Nat → Nat → Nat → Nat
  | 0, left, _ => left
  | steps + 1, left, right =>
    if left < right then
      let mid := left + (right - left) / 2
      if compareEntries pivot (a.getD mid pivot) < 0 then searchPlace pivot a steps left mid
      else searchPlace pivot a steps (mid + 1) right
    else left

/-- The loop of `BinaryInsertionSort`: each of the `count` elements from index `start` on
is moved to its place among the elements before it. -/
def binaryInsertionSort : Nat → Nat → List (String × JsVal) → List (String × JsVal)
  | 0, _, a => a
  | count + 1, start, a =>
    match a.get? start with
    | none => a
    | some pivot =>
      let place := searchPlace pivot a (start + 1) 0 start
      binaryInsertionSort count (start + 1)
        (a.take place ++ pivot :: ((a.take start).drop place ++ a.drop (start + 1)))

/-- The sort of the engine (V8) on an array of fewer than 64 elements: one run is counted
and the other elements are inserted into it by binary search. -/
def engineSort (l : List (String × JsVal)) : List (String × JsVal) :=
  binaryInsertionSort (l.length - (countAndMakeRun l).1) (countAndMakeRun l).1
    (countAndMakeRun l).2

/-- The call `.sort(([, a], [, b]) => b - a)`. When every count is a number the comparator
is a consistent order and the language fixes the result: the stable sort by descending
count, rendered by insertion from the right. With a text among the counts the comparator
is not consistent and the language leaves the order to the engine: the steps of the engine
are then followed as it takes them on arrays of fewer than 64 elements (the merging of
runs in longer arrays is not rendered). -/
def sortDescending (l : List (String × JsVal)) : List (String × JsVal) :=
  if allNumeric l then l.insertionSort staysBefore else engineSort l

/-! ## Dates -/

/-- The largest magnitude of a time value, in milliseconds since the epoch. -/
def maxTimeValue : Int := 8640000000000000

/-- The time clip of `new Date(t)`: `none` stands for the invalid date. -/
def timeClip (t : Int) : Option Int :=
  if -maxTimeValue ≤ t ∧ t ≤ maxTimeValue then some t else none

/-- Year, month and day of month of the proleptic Gregorian date that lies `z` days after
1970-01-01, computed over 400-year eras of 146097 days that start on a first of March. -/
def civilFromDays (z : Int) : Int × Int × Int :=
  let z := z + 719468
  let era := z / 146097
  let doe := z - era * 146097
  let yoe := (doe - doe / 1460 + doe / 36524 - doe / 146096) / 365
  let doy := doe - (365 * yoe + yoe / 4 - yoe / 100)
  let mp := (5 * doy + 2) / 153
  let d := doy - (153 * mp + 2) / 5 + 1
  let m := if mp < 10 then mp + 3 else mp - 9
  let y := yoe + era * 400
  (if m ≤ 2 then y + 1 else y, m, d)

/-- The decimal numeral of `n`, left-padded with zeros to `width` characters. -/
def padStart (width : Nat) (n : Nat) : String :=
  String.mk (List.replicate (width - (toString n).length) '0') ++ toString n

/-- The year as `toISOString` prints it: four digits for years 0 to 9999, otherwise a sign
and six digits. -/
def isoYear (y : Int) : String :=
  if 0 ≤ y ∧ y ≤ 9999 then padStart 4 y.toNat
  else if y < 0 then "-" ++ padStart 6 (-y).toNat
  else "+" ++ padStart 6 y.toNat

/-- The date part `YYYY-MM-DD` of the UTC day holding the time value `t`. -/
def datePart (t : Int) : String :=
  let ymd := civilFromDays (t / 86400000)
  isoYear ymd.1 ++ "-" ++ padStart 2 ymd.2.1.toNat ++ "-" ++ padStart 2 ymd.2.2.toNat

/-- The time part `HH:mm:ss.sssZ` of the time value `t`. -/
def timePart (t : Int) : String :=
  let ms := (t % 86400000).toNat
  padStart 2 (ms / 3600000) ++ ":" ++ padStart 2 (ms / 60000 % 60) ++ ":"
    ++ padStart 2 (ms / 1000 % 60) ++ "." ++ padStart 3 (ms % 1000) ++ "Z"

/-- The text of `new Date(t).toISOString()` for a valid time value `t`. -/
def toISOString (t : Int) : String :=
  datePart t ++ "T" ++ timePart t

/-- The function `String.prototype.split` with a one-character separator, on characters. -/
def splitChars (sep : Char) : List Char → List (List Char)
  | [] => [[]]
  | c :: cs =>
    if c = sep then [] :: splitChars sep cs
    else
      match splitChars sep cs with
      | [] => [[c]]
      | seg :: segs => (c :: seg) :: segs

/-- The value of `new Date(t).toISOString().split("T")[0]` for a valid time value `t`. -/
def isoDate (t : Int) : String :=
  String.mk ((splitChars 'T' (toISOString t).data).headD [])

/-- The whole of `new Date(t).toISOString().split("T")[0]`: `toISOString` throws a
`RangeError` on the invalid date. -/
def isoDateOf (t : Option Int) : Except String String :=
  match t.bind timeClip with
  | some v => Except.ok (isoDate v)
  | none => Except.error "Invalid time value"

/-! ## Commits -/

/-- One element of the commit list as the service reads it. `authorLogin` is
`commit.author.login`, or `none` when `commit.author` is `null`; `authorTime` is the time
value of `new Date(commit.commit.author.date)`, or `none` when that date is invalid. -/
structure RawCommit where
  authorLogin : Option String
  authorTime : Option Int
  deriving DecidableEq, Repr

/-- An element of `commitsData`. -/
structure CommitDatum where
  author : String
  date : String
  deriving DecidableEq, Repr

/-- An element of `commits_per_day`. -/
structure DayEntry where
  date : String
  commits : JsVal
  deriving DecidableEq, Repr

/-- An element of `top_contributors`. -/
structure ContributorEntry where
  author : String
  commits : JsVal
  deriving DecidableEq, Repr

/-- The pair `commitsPerDay`, `topContributors` returned by `getCommitsData`. -/
structure CommitsData where
  commitsPerDay : List DayEntry
  topContributors : List ContributorEntry
  deriving DecidableEq, Repr

/-- The function `Array.prototype.map` with a callback that may throw: the first exception
ends the traversal. -/
def mapThrowing {α β : Type} (f : α → Except String β) : List α → Except String (List β)
  | [] => Except.ok []
  | a :: as =>
    match f a with
    | Except.error e => Except.error e
    | Except.ok b =>
      match mapThrowing f as with
      | Except.error e => Except.error e
      | Except.ok bs => Except.ok (b :: bs)

/-- The method `processCommitsPerDay`. -/
def processCommitsPerDay (commitsData : List CommitDatum) : List DayEntry :=
  (objectEntries (commitsData.foldl (fun acc c => bump acc c.date) [])).map
    (fun p => { date := p.1, commits := p.2 })

/-- The method `processTopContributors`. -/
def processTopContributors (commitsData : List CommitDatum) : List ContributorEntry :=
  ((sortDescending
      (objectEntries (commitsData.foldl (fun acc c => bump acc c.author) []))).take 10).map
    (fun p => { author := p.1, commits := p.2 })

/-- The callback of `.map` in `getCommitsData`: `commit.author.login` is read first (the
filter has removed the commits on which this read throws), then the date is computed. -/
def toCommitDatum (c : RawCommit) : Except String CommitDatum :=
  match c.authorLogin with
  | none => Except.error "Cannot read properties of null (reading \x27login\x27)"
  | some login =>
    match isoDateOf c.authorTime with
    | Except.error e => Except.error e
    | Except.ok d => Except.ok { author := login, date := d }

/-- The list `commitsData` of `getCommitsData`: filter on `commit.author`, map, reverse. -/
def buildCommitsData (commits : List RawCommit) : Except String (List CommitDatum) :=
  match mapThrowing toCommitDatum (commits.filter (fun c => c.authorLogin.isSome)) with
  | Except.error e => Except.error e
  | Except.ok ds => Except.ok ds.reverse

/-- The method `getCommitsData`, from the fetched commit list on. -/
def commitsDataOf (commits : List RawCommit) : Except String CommitsData :=
  match buildCommitsData commits with
  | Except.error e => Except.error e
  | Except.ok cd =>
    Except.ok { commitsPerDay := processCommitsPerDay cd,
                topContributors := processTopContributors cd }

/-! ## Contributor count -/

/-- The loop of `getContributorsCount`, with the number of requests it may still make.
`listContributors page` is the outcome of the request for that page: the page, or the
message of the error thrown. `none` means the requests allowed did not end the loop. -/
def getContributorsCountLoop {κ : Type} (listContributors : Nat → Except String (List κ)) :
    Nat → Nat → Nat → Option Nat
  | 0, _, _ => none
  | fuel + 1, contributorsCount, page =>
    match listContributors page with
    | Except.error _ => some contributorsCount
    | Except.ok contributors =>
      if contributors.length = 0 then some contributorsCount
      else if contributors.length < 100 then some (contributorsCount + contributors.length)
      else getContributorsCountLoop listContributors fuel
        (contributorsCount + contributors.length) (page + 1)

/-- The method `getContributorsCount`: the loop started with count `0` at page `1`. -/
def getContributorsCount {κ : Type} (listContributors : Nat → Except String (List κ))
    (fuel : Nat) : Option Nat :=
  getContributorsCountLoop listContributors fuel 0 1

/-- The number of entries an outcome adds to the count: an error adds nothing. -/
def outcomeSize {κ : Type} : Except String (List κ) → Nat
  | Except.error _ => 0
  | Except.ok contributors => contributors.length

/-- The sum of the sizes of the outcomes of pages `1` to `k`. -/
def sizeOfPages {κ : Type} (listContributors : Nat → Except String (List κ)) (k : Nat) : Nat :=
  ((List.range k).map (fun i => outcomeSize (listContributors (i + 1)))).sum

/-- An upstream that answers the successive page requests with the listed outcomes, and
with an empty page once they are used up. -/
def servePages {κ : Type} (outcomes : List (Except String (List κ))) (page : Nat) :
    Except String (List κ) :=
  (outcomes.get? (page - 1)).getD (Except.ok [])

/-- A page of `n` anonymous entries. -/
def pageOfSize (n : Nat) : Except String (List Unit) := Except.ok (List.replicate n ())

/-! ## Trend data -/

/-- A value produced by `JSON.parse`. Numbers are given by an integer value; the fields of
an object are its own properties. -/
inductive Json where
  | null
  | bool (b : Bool)
  | num (n : Int)
  | str (s : String)
  | arr (items : List Json)
  | obj (fields : List (String × Json))
  deriving Repr

/-- Truthiness of a parsed value. -/
def Json.truthy : Json → Bool
  | Json.null => false
  | Json.bool b => b
  | Json.num n => n != 0
  | Json.str s => s != ""
  | Json.arr _ => true
  | Json.obj _ => true

/-- Truthiness of a parsed value or `undefined`. -/
def truthyOrUndefined : Option Json → Bool
  | none => false
  | some v => v.truthy

/-- The property read `x.key` on a value that is not `null`, for the keys the service reads
(`default`, `timelineData`, `value`, `time`), none of which is inherited from a prototype:
an own property of an object, otherwise `undefined` (`none`). -/
def Json.prop (x : Json) (key : String) : Option Json :=
  match x with
  | Json.obj fields => fields.lookup key
  | _ => none

/-- The element read `v[0]` on a value that is neither `null` nor `undefined`. -/
def Json.first (v : Json) : Option Json :=
  match v with
  | Json.arr items => items.head?
  | Json.str s => s.data.head?.map (fun c => Json.str (String.mk [c]))
  | Json.obj fields => fields.lookup "0"
  | _ => none

/-- The nested read `result.default.timelineData`; `undefined` (`none`) also when
`result.default` is `undefined`, a case the callers meet only under `!`. -/
def timelineDataOf (result : Json) : Option Json :=
  (result.prop "default").bind (fun d => d.prop "timelineData")

/-- An element of `topic_interest`; `popularity` is `none` when `item.value[0]` is
`undefined`. -/
structure TrendPoint where
  popularity : Option Json
  date : String
  deriving Repr

/-- What the trend library hands to the callback given to `interestOverTime`: an error, or
results on which `JSON.parse` either throws (with a message) or yields a value. -/
inductive TrendsOutcome where
  | failure (err : String)
  | results (parsed : Except String Json)
  deriving Repr

/-- The promise built in `getGoogleTrendsData`: rejected with a message, or resolved with
the parsed results. -/
def trendsPromise (outcome : TrendsOutcome) : Except String Json :=
  match outcome with
  | TrendsOutcome.failure err => Except.error err
  | TrendsOutcome.results (Except.error m) =>
    Except.error ("Failed to parse Google Trends response: " ++ m)
  | TrendsOutcome.results (Except.ok parsedResults) =>
    if !parsedResults.truthy
        || !truthyOrUndefined (parsedResults.prop "default")
        || !truthyOrUndefined (timelineDataOf parsedResults)
    then Except.error "Invalid Google Trends response format"
    else Except.ok parsedResults

/-- The callback of `timelineData.map`. The built-in `parseInt` is a parameter: it maps a
value or `undefined` to an integer, or to `none` for `NaN`. -/
def trendPoint (parseInt : Option Json → Option Int) (item : Json) : Except String TrendPoint :=
  match item with
  | Json.null => Except.error "Cannot read properties of null (reading \x27value\x27)"
  | _ =>
    match item.prop "value" with
    | none => Except.error "Cannot read properties of undefined (reading \x270\x27)"
    | some Json.null => Except.error "Cannot read properties of null (reading \x270\x27)"
    | some v =>
      match isoDateOf ((parseInt (item.prop "time")).map (fun n => n * 1000)) with
      | Except.error e => Except.error e
      | Except.ok d => Except.ok { popularity := v.first, date := d }

/-- The method `getGoogleTrendsData`: every exception is caught and answered with `[]`. -/
def getGoogleTrendsData (parseInt : Option Json → Option Int) (outcome : TrendsOutcome) :
    List TrendPoint :=
  match trendsPromise outcome with
  | Except.error _ => []
  | Except.ok result =>
    match timelineDataOf result with
    | some (Json.arr timelineData) =>
      match mapThrowing (trendPoint parseInt) timelineData with
      | Except.error _ => []
      | Except.ok points => points
    | _ => []

/-! ## The aggregator -/

/-- The destructuring `const [owner, repo] = repository.split("/")`: `owner` is the first
segment, `repo` the second one, or `undefined` (`none`) when there is no second segment. -/
def parseIdentifier (repository : String) : String × Option String :=
  match splitChars '/' repository.data with
  | [] => ("", none)
  | [owner] => (String.mk owner, none)
  | owner :: repo :: _ => (String.mk owner, some (String.mk repo))

/-- The fields of the repository metadata the report uses. -/
structure RepoData where
  name : String
  description : Option String
  stargazers_count : Nat
  forks_count : Nat
  created_at : String
  updated_at : String
  homepage : Option String
  deriving DecidableEq, Repr

/-- An issue as listed upstream; `user` is `issue.user.login`, or `none` when `issue.user`
is `null`. -/
structure Issue where
  title : String
  user : Option String
  html_url : String
  deriving DecidableEq, Repr

/-- A release as listed upstream; `name` is `none` when it is `null`. -/
structure Release where
  name : Option String
  tag_name : String
  deriving DecidableEq, Repr

/-- An element of `latest_open_issues`. -/
structure IssueSummary where
  issue : String
  user : String
  href : String
  deriving DecidableEq, Repr

/-- An element of `releases`. -/
structure ReleaseSummary where
  release : String
  deriving DecidableEq, Repr

/-- An element of `languages`. -/
structure LanguageEntry where
  language : String
  loc : Nat
  deriving DecidableEq, Repr

/-- What the service calls: the endpoints of the hosting API (each answers with data or
with the message of the error it throws), the trend library and the built-in `parseInt`.
The repository name is `none` when `repo` is `undefined`. `listLanguages` answers with the
own properties of the language object in creation order. -/
structure Env (κ : Type) where
  reposGet : String → Option String → Except String RepoData
  listIssues : String → Option String → Except String (List Issue)
  listReleases : String → Option String → Except String (List Release)
  listLanguages : String → Option String → Except String (List (String × Nat))
  listContributors : String → Option String → Nat → Except String (List κ)
  listCommits : String → Option String → Except String (List RawCommit)
  interestOverTime : Option String → TrendsOutcome
  parseInt : Option Json → Option Int

/-- The report returned by `getData`. -/
structure Report where
  repoName : String
  description : Option String
  stars : Nat
  forks : Nat
  created_at : String
  updated_at : String
  homepage : Option String
  latest_open_issues : List IssueSummary
  releases : List ReleaseSummary
  languages : List LanguageEntry
  contributors : Nat
  latest_release : Option String
  commits_per_day : List DayEntry
  top_contributors : List ContributorEntry
  topic_interest : List TrendPoint
  deriving Repr

/-- The callback of `issues.map` in `getLatestOpenIssues`. -/
def toIssueSummary (issue : Issue) : Except String IssueSummary :=
  match issue.user with
  | none => Except.error "Cannot read properties of null (reading \x27login\x27)"
  | some login => Except.ok { issue := issue.title, user := login, href := issue.html_url }

/-- The method `getLatestOpenIssues`. -/
def getLatestOpenIssues {κ : Type} (env : Env κ) (owner : String) (repo : Option String) :
    Except String (List IssueSummary) :=
  match env.listIssues owner repo with
  | Except.error e => Except.error e
  | Except.ok issues => mapThrowing toIssueSummary issues

/-- The callback of `releases.map`: `release.name || release.tag_name`. -/
def toReleaseSummary (release : Release) : ReleaseSummary :=
  match release.name with
  | some n => if n = "" then { release := release.tag_name } else { release := n }
  | none => { release := release.tag_name }

/-- The method `getLastReleases`. -/
def getLastReleases {κ : Type} (env : Env κ) (owner : String) (repo : Option String) :
    Except String (List ReleaseSummary) :=
  match env.listReleases owner repo with
  | Except.error e => Except.error e
  | Except.ok releases => Except.ok (releases.map toReleaseSummary)

/-- The method `getLanguages`. -/
def getLanguages {κ : Type} (env : Env κ) (owner : String) (repo : Option String) :
    Except String (List LanguageEntry) :=
  match env.listLanguages owner repo with
  | Except.error e => Except.error e
  | Except.ok repoLanguages =>
    Except.ok ((objectEntries repoLanguages).map (fun p => { language := p.1, loc := p.2 }))

/-- The method `getCommitsData`. -/
def getCommitsData {κ : Type} (env : Env κ) (owner : String) (repo : Option String) :
    Except String CommitsData :=
  match env.listCommits owner repo with
  | Except.error e => Except.error e
  | Except.ok commits => commitsDataOf commits

/-- The body of the `try` block of `getData` for a string argument. The outer `Option` is
`none` when the contributor pagination does not end within `fuel` requests; the `Except`
carries the message of the exception thrown. -/
def getDataTry {κ : Type} (env : Env κ) (fuel : Nat) (repository : String) :
    Option (Except String Report) :=
  let owner := (parseIdentifier repository).1
  let repo := (parseIdentifier repository).2
  match env.reposGet owner repo with
  | Except.error e => some (Except.error e)
  | Except.ok repoData =>
  match getLatestOpenIssues env owner repo with
  | Except.error e => some (Except.error e)
  | Except.ok latestOpenIssues =>
  match getLastReleases env owner repo with
  | Except.error e => some (Except.error e)
  | Except.ok lastReleases =>
  match getLanguages env owner repo with
  | Except.error e => some (Except.error e)
  | Except.ok languages =>
  match getContributorsCount (env.listContributors owner repo) fuel with
  | none => none
  | some contributors =>
  match getCommitsData env owner repo with
  | Except.error e => some (Except.error e)
  | Except.ok commitsData =>
    some (Except.ok
      { repoName := repoData.name
        description := repoData.description
        stars := repoData.stargazers_count
        forks := repoData.forks_count
        created_at := repoData.created_at
        updated_at := repoData.updated_at
        homepage := repoData.homepage
        latest_open_issues := latestOpenIssues
        releases := lastReleases
        languages := languages
        contributors := contributors
        latest_release := lastReleases.head?.map (fun r => r.release)
        commits_per_day := commitsData.commitsPerDay
        top_contributors := commitsData.topContributors
        topic_interest := getGoogleTrendsData env.parseInt (env.interestOverTime repo) })

/-- The value of the query parameter when present: a string, or an array or object built
by the query-string parser. -/
inductive QueryValue where
  | str (s : String)
  | nonString
  deriving DecidableEq, Repr

/-- The method `getData`: an exception of the `try` block is rethrown with the prefixed
message. An argument that is not a string has no `split` method. -/
def getData {κ : Type} (env : Env κ) (fuel : Nat) (repository : QueryValue) :
    Option (Except String Report) :=
  match repository with
  | QueryValue.nonString =>
    some (Except.error ("Failed to fetch repository data: " ++ "repository.split is not a function or its return value is not iterable"))
  | QueryValue.str s =>
    match getDataTry env fuel s with
    | none => none
    | some (Except.error m) => some (Except.error ("Failed to fetch repository data: " ++ m))
    | some (Except.ok report) => some (Except.ok report)

/-! ## The controller -/

/-- The body of a response: `{error: message}` or the report. -/
inductive Body where
  | error (message : String)
  | report (data : Report)
  deriving Repr

/-- The response sent by the controller. -/
structure Response where
  status : Nat
  body : Body
  deriving Repr

/-- What handling one request did: the response sent, and the calls
`new GithubData(token).getData(query)` made, each with its two arguments. -/
structure Handled where
  response : Response
  aggregatorCalls : List (String × QueryValue)
  deriving Repr

/-- Truthiness of `process.env.TOKEN`: `undefined` and the empty string are falsy. -/
def tokenGiven (token : Option String) : Option String :=
  match token with
  | some t => if t = "" then none else some t
  | none => none

/-- Truthiness of `req.query.query`: `undefined` and the empty string are falsy. -/
def queryGiven (query : Option QueryValue) : Option QueryValue :=
  match query with
  | some (QueryValue.str s) => if s = "" then none else some (QueryValue.str s)
  | some QueryValue.nonString => some QueryValue.nonString
  | none => none

/-- The handler `getRepositoryData`. `none` when `getData` does not return within `fuel`
contributor requests. -/
def getRepositoryData {κ : Type} (env : Env κ) (fuel : Nat) (token : Option String)
    (query : Option QueryValue) : Option Handled :=
  match tokenGiven token with
  | none =>
    some { response := { status := 400, body := Body.error "GitHub token is required" }
           aggregatorCalls := [] }
  | some t =>
    match queryGiven query with
    | none =>
      some { response := { status := 400, body := Body.error "Repository query is required" }
             aggregatorCalls := [] }
    | some q =>
      match getData env fuel q with
      | none => none
      | some (Except.ok data) =>
        some { response := { status := 200, body := Body.report data }
               aggregatorCalls := [(t, q)] }
      | some (Except.error message) =>
        some { response := { status := 500, body := Body.error message }
               aggregatorCalls := [(t, q)] }

/-! ## Reference notions for the two groupings -/

/-- The distinct elements of a list, in the order in which each is first met. -/
def firstAppearance : List String → List String
  | [] => []
  | k :: ks => k :: (firstAppearance ks).filter (fun x => x ≠ k)

/-- The counting map of a list of keys: each distinct key, in order of first appearance,
with the number of times it occurs. -/
def tallyOf (keys : List String) : List (String × Nat) :=
  (firstAppearance keys).map (fun k => (k, keys.count k))

/-- A counted entry as the accumulator holds it. -/
def asEntry (p : String × Nat) : String × JsVal := (p.1, JsVal.num p.2)

/-- The commits with a resolvable author: those the filter of `getCommitsData` keeps. -/
def withAuthor (commits : List RawCommit) : List RawCommit :=
  commits.filter (fun c => c.authorLogin.isSome)

/-- The UTC author date of a commit, when its author time is a valid date. -/
def utcDate (c : RawCommit) : Option String := (isoDateOf c.authorTime).toOption

/-- The UTC author dates of the commits with a resolvable author, oldest listed commit
first: the fetched order reversed. -/
def oldestFirstDates (commits : List RawCommit) : List String :=
  (withAuthor commits).reverse.filterMap utcDate

/-- An entry of `commits_per_day` holding a number. -/
def dayEntry (p : String × Nat) : DayEntry := { date := p.1, commits := JsVal.num p.2 }

/-- Lexicographic comparison of two texts, character by character. -/
def charsBefore : List Char → List Char → Bool
  | [], [] => false
  | [], _ :: _ => true
  | _ :: _, [] => false
  | a :: as, b :: bs => decide (a < b) || (a == b && charsBefore as bs)

/-- The date `a` is strictly earlier than the date `b`, as ISO date texts compare: for the
four-digit years 0000 to 9999 this is the order of the calendar. -/
def dateBefore (a b : String) : Prop := charsBefore a.data b.data = true

instance dateBeforeDecidable : DecidableRel dateBefore := fun a b =>
  inferInstanceAs (Decidable (charsBefore a.data b.data = true))

/-- An entry of `top_contributors` holding a number. -/
def contributorEntry (p : String × Nat) : ContributorEntry :=
  { author := p.1, commits := JsVal.num p.2 }

/-- The stable sort of counted entries by descending count: the one list that holds the
same entries, is in descending order of count, and keeps entries of equal count in their
given order. -/
def rankDescending (l : List (String × Nat)) : List (String × Nat) :=
  l.insertionSort (fun a b => b.2 ≤ a.2)

instance rankTotal : IsTotal (String × Nat) (fun a b => b.2 ≤ a.2) :=
  ⟨fun a b => Nat.le_total b.2 a.2⟩

instance rankTrans : IsTrans (String × Nat) (fun a b => b.2 ≤ a.2) :=
  ⟨fun _ _ _ hab hbc => Nat.le_trans hbc hab⟩

/-- The reference ranking of top contributors: the distinct author logins in the order
they first appear in the oldest-first commit list, each with its commit count, stably
sorted by descending count, cut to the first ten. -/
def referenceRanking (commitsData : List CommitDatum) : List ContributorEntry :=
  ((rankDescending (tallyOf (commitsData.map (fun c => c.author)))).take 10).map
    contributorEntry

/-- The ranking in the order of `Object.entries`: as `referenceRanking`, but the logins
that are array indices come first, in ascending numeric order, before the sort. -/
def entriesRanking (commitsData : List CommitDatum) : List ContributorEntry :=
  ((rankDescending (objectEntries (tallyOf (commitsData.map (fun c => c.author))))).take
    10).map contributorEntry

/-! ## Statements about whole requests -/

/-- The request for `repository` fails as a whole with cause message `m`: `getData` throws
one error whose message is the prefixed `m` (so it returns no report), and the handler,
given a credential, answers 500 with that message. -/
def FailsWith {κ : Type} (env : Env κ) (fuel : Nat) (repository m : String) : Prop :=
  getData env fuel (QueryValue.str repository)
      = some (Except.error ("Failed to fetch repository data: " ++ m))
  ∧ ∀ token, token ≠ "" → repository ≠ "" →
      getRepositoryData env fuel (some token) (some (QueryValue.str repository))
        = some { response :=
                   { status := 500
                     body := Body.error ("Failed to fetch repository data: " ++ m) }
                 aggregatorCalls := [(token, QueryValue.str repository)] }

/-- The timeline items on which the callback of `map` throws: `null` (the read of `value`
throws), an item whose `value` is `undefined` or `null` (the read of `[0]` throws), and an
item whose `time` gives no valid date (`toISOString` throws). -/
def ItemThrows (parseInt : Option Json → Option Int) (item : Json) : Prop :=
  item = Json.null
  ∨ item.prop "value" = none
  ∨ item.prop "value" = some Json.null
  ∨ ((parseInt (item.prop "time")).map (fun n => n * 1000)).bind timeClip = none

/-- The outcomes of the trend call on which an exception is raised and caught: an error
handed to the callback (network, timeout), an unparsable payload, a parsed payload in
which `default.timelineData` is missing or is no array, or a timeline with an item on
which the callback of `map` throws. -/
def TrendsUnusable (parseInt : Option Json → Option Int) (outcome : TrendsOutcome) : Prop :=
  (∃ err, outcome = TrendsOutcome.failure err)
  ∨ (∃ m, outcome = TrendsOutcome.results (Except.error m))
  ∨ (∃ parsed, outcome = TrendsOutcome.results (Except.ok parsed)
      ∧ ∀ items, timelineDataOf parsed ≠ some (Json.arr items))
  ∨ (∃ parsed items item, outcome = TrendsOutcome.results (Except.ok parsed)
      ∧ timelineDataOf parsed = some (Json.arr items)
      ∧ item ∈ items ∧ ItemThrows parseInt item)

/-- The built-in `parseInt` on the texts made of decimal digits only; on every other
argument this stand-in answers `NaN`. It serves to run the service on payloads whose
times are such texts. -/
def parseIntOfDigits (v : Option Json) : Option Int :=
  match v with
  | some (Json.str s) =>
    if s.data ≠ [] ∧ s.data.all Char.isDigit = true then some (numeralValue s.data) else none
  | _ => none

/-- A payload with a timeline of one item, of the given `time` and `value`. -/
def payloadOfItem (time value : Json) : Json :=
  Json.obj [("default", Json.obj [("timelineData",
    Json.arr [Json.obj [("time", time), ("value", value)]])])]

/-- An upstream on which every request succeeds: the metadata repeats the owner and the
name asked for, there are 137 contributors on two pages, and the commit list and the
outcome of the trend call are as given. -/
def echoEnv (commits : List RawCommit) (trends : TrendsOutcome) : Env Unit where
  reposGet := fun owner repo => Except.ok
    { name := owner, description := repo, stargazers_count := 0, forks_count := 0,
      created_at := "", updated_at := "", homepage := none }
  listIssues := fun _ _ => Except.ok []
  listReleases := fun _ _ => Except.ok []
  listLanguages := fun _ _ => Except.ok []
  listContributors := fun _ _ page => servePages [pageOfSize 100, pageOfSize 37] page
  listCommits := fun _ _ => Except.ok commits
  interestOverTime := fun _ => trends
  parseInt := fun _ => none

/-- The upstream `echoEnv` with one endpoint replaced by a failing one. -/
def failingEnv (step : Nat) (m : String) : Env Unit :=
  let env := echoEnv [] (TrendsOutcome.failure "timeout")
  match step with
  | 0 => { env with reposGet := fun _ _ => Except.error m }
  | 1 => { env with listIssues := fun _ _ => Except.error m }
  | 2 => { env with listReleases := fun _ _ => Except.error m }
  | 3 => { env with listLanguages := fun _ _ => Except.error m }
  | _ => { env with listCommits := fun _ _ => Except.error m }

/-! ## Counting maps: properties -/

theorem mem_firstAppearance : ∀ (ks : List String) (x : String), x ∈ firstAppearance ks ↔ x ∈ ks
  | [], x => by simp [firstAppearance]
  | k :: ks, x => by
    simp only [firstAppearance, List.mem_cons, List.mem_filter, mem_firstAppearance ks x,
      decide_eq_true_eq]
    by_cases h : x = k <;> simp [h]

theorem nodup_firstAppearance : ∀ ks : List String, (firstAppearance ks).Nodup
  | [] => by simp [firstAppearance]
  | k :: ks => by
    simp only [firstAppearance, List.nodup_cons, List.mem_filter, decide_eq_true_eq]
    exact ⟨fun h => h.2 rfl, (nodup_firstAppearance ks).filter _⟩

theorem firstAppearance_append_singleton : ∀ (ks : List String) (k : String),
    firstAppearance (ks ++ [k]) =
      if k ∈ ks then firstAppearance ks else firstAppearance ks ++ [k]
  | [], k => by simp [firstAppearance]
  | a :: ks, k => by
    have ih := firstAppearance_append_singleton ks k
    simp only [List.cons_append, firstAppearance, List.mem_cons, List.append_eq]
    rw [ih]
    by_cases hk : k ∈ ks
    · simp [hk]
    · by_cases hka : k = a
      · subst hka
        simp [hk, List.filter_append]
      · simp [hk, hka, List.filter_append]

theorem lookup_map_pair (f : String → JsVal) (k : String) :
    ∀ l : List String, List.lookup k (l.map (fun x => (x, f x))) =
      if k ∈ l then some (f k) else none
  | [] => by simp [List.lookup]
  | a :: l => by
    simp only [List.map_cons, List.lookup_cons, lookup_map_pair f k l, List.mem_cons]
    by_cases h : k = a
    · subst h; simp
    · have h' : (k == a) = false := by simpa using h
      simp [h, h']

theorem inheritedText_of_plain (k : String) (h : k ∉ objectPrototypeKeys) :
    inheritedText k = none ∧ k ≠ "__proto__" := by
  have h1 : k ≠ "__proto__" := fun e => h (by simp [objectPrototypeKeys, e])
  have h2 : k ∉ objectPrototypeMethods := fun e => h (by simp [objectPrototypeKeys, e])
  have h3 : k ≠ "constructor" := fun e => h2 (by simp [objectPrototypeMethods, e])
  exact ⟨by simp [inheritedText, h1, h2, h3], h1⟩

theorem bump_tallyOf (ks : List String) (k : String) (h : k ∉ objectPrototypeKeys) :
    bump ((tallyOf ks).map asEntry) k = (tallyOf (ks ++ [k])).map asEntry := by
  obtain ⟨hin, hproto⟩ := inheritedText_of_plain k h
  have hmap : (tallyOf ks).map asEntry
      = (firstAppearance ks).map (fun x => (x, JsVal.num (ks.count x))) := by
    simp [tallyOf, asEntry, List.map_map, Function.comp_def]
  have hkeys : ((tallyOf ks).map asEntry).map Prod.fst = firstAppearance ks := by
    simp [tallyOf, asEntry, List.map_map, Function.comp_def]
  unfold bump assign incremented
  rw [hkeys]
  rw [hmap, lookup_map_pair (fun x => JsVal.num (ks.count x)) k (firstAppearance ks)]
  simp only [mem_firstAppearance]
  by_cases hk : k ∈ ks
  · simp only [hk, if_true, tallyOf, firstAppearance_append_singleton, List.map_map]
    apply List.map_congr_left
    intro x _
    by_cases hx : x = k
    · subst hx
      simp [asEntry, List.count_append]
    · have hx' : k ≠ x := fun e => hx e.symm
      simp [asEntry, List.count_append, hx, hx']
  · simp only [hk, if_false, hin, hproto, tallyOf, firstAppearance_append_singleton,
      List.map_append, List.map_map, List.map_cons, List.map_nil]
    congr 1
    · apply List.map_congr_left
      intro x hx
      have hxk : k ≠ x := fun e => hk (e ▸ (mem_firstAppearance ks x).1 hx)
      have hc : List.count x [k] = 0 := List.count_eq_zero_of_not_mem (by simpa using hxk.symm)
      simp [asEntry, List.count_append, hc]
    · simp [asEntry, List.count_append, List.count_eq_zero_of_not_mem hk]

theorem foldl_bump_eq_tallyOf (keys : List String) (h : ∀ k ∈ keys, k ∉ objectPrototypeKeys) :
    keys.foldl bump [] = (tallyOf keys).map asEntry := by
  induction keys using List.reverseRecOn with
  | nil => rfl
  | append_singleton ks k ih =>
    rw [List.foldl_append, List.foldl_cons, List.foldl_nil,
      ih (fun x hx => h x (List.mem_append_left _ hx)),
      bump_tallyOf ks k (h k (by simp))]

/-! ## Daily counts: properties -/

theorem objectEntries_of_no_index {β : Type} (o : List (String × β))
    (h : ∀ p ∈ o, isArrayIndex p.1 = false) : objectEntries o = o := by
  unfold objectEntries
  have h1 : o.filter (fun p => isArrayIndex p.1) = [] := by
    rw [List.filter_eq_nil_iff]
    intro p hp
    simp [h p hp]
  have h2 : o.filter (fun p => !isArrayIndex p.1) = o := by
    rw [List.filter_eq_self]
    intro p hp
    simp [h p hp]
  rw [h1, h2]
  rfl

theorem all_digits_of_canonical : ∀ cs : List Char, isCanonicalNumeral cs = true →
    ∀ c ∈ cs, c.isDigit = true
  | [], h => by simp [isCanonicalNumeral] at h
  | [a], h => by
    intro c hc
    simp only [List.mem_singleton] at hc
    subst hc
    simpa [isCanonicalNumeral] using h
  | a :: b :: cs, h => by
    intro c hc
    simp only [isCanonicalNumeral, Bool.and_eq_true, List.all_eq_true] at h
    rcases List.mem_cons.1 hc with rfl | hc'
    · exact h.1.1
    · exact h.2 c hc'

theorem not_arrayIndex_of_hyphen (s : String) (h : '-' ∈ s.data) : isArrayIndex s = false := by
  cases hc : isCanonicalNumeral s.data with
  | false => simp [isArrayIndex, hc]
  | true =>
    have := all_digits_of_canonical s.data hc '-' h
    exact absurd this (by decide)

theorem not_prototypeKey_of_hyphen (s : String) (h : '-' ∈ s.data) :
    s ∉ objectPrototypeKeys := by
  intro hs
  have hall : ∀ k ∈ objectPrototypeKeys, '-' ∉ k.data := by decide
  exact hall s hs h

theorem splitChars_of_not_mem (sep : Char) :
    ∀ l : List Char, sep ∉ l → splitChars sep l = [l]
  | [], _ => rfl
  | c :: cs, h => by
    have hc : c ≠ sep := fun hc => h (by simp [hc])
    have hcs : sep ∉ cs := fun hm => h (List.mem_cons_of_mem _ hm)
    simp [splitChars, hc, splitChars_of_not_mem sep cs hcs]

theorem splitChars_append_sep (sep : Char) (r : List Char) :
    ∀ l : List Char, sep ∉ l → splitChars sep (l ++ sep :: r) = l :: splitChars sep r
  | [], _ => by simp [splitChars]
  | c :: cs, h => by
    have hc : c ≠ sep := fun hc => h (by simp [hc])
    have hcs : sep ∉ cs := fun hm => h (List.mem_cons_of_mem _ hm)
    simp [splitChars, hc, splitChars_append_sep sep r cs hcs]

theorem isDigit_digitChar (n : Nat) (h : n < 10) : (Nat.digitChar n).isDigit = true := by
  interval_cases n <;> decide

theorem isDigit_toDigitsCore : ∀ (fuel n : Nat) (ds : List Char),
    (∀ c ∈ ds, c.isDigit = true) → ∀ c ∈ Nat.toDigitsCore 10 fuel n ds, c.isDigit = true
  | 0, _, ds, h => by simpa [Nat.toDigitsCore] using h
  | fuel + 1, n, ds, h => by
    have hd : (Nat.digitChar (n % 10)).isDigit = true :=
      isDigit_digitChar _ (Nat.mod_lt _ (by decide))
    have hds : ∀ c ∈ Nat.digitChar (n % 10) :: ds, c.isDigit = true := by
      intro c hc
      rcases List.mem_cons.1 hc with rfl | hc'
      · exact hd
      · exact h c hc'
    simp only [Nat.toDigitsCore]
    split
    · exact hds
    · exact isDigit_toDigitsCore fuel (n / 10) _ hds

theorem isDigit_of_mem_toString (n : Nat) : ∀ c ∈ (toString n).data, c.isDigit = true :=
  isDigit_toDigitsCore (n + 1) n [] (by simp)

theorem isDigit_of_mem_padStart (width n : Nat) :
    ∀ c ∈ (padStart width n).data, c.isDigit = true := by
  intro c hc
  simp only [padStart, String.data_append, List.mem_append, List.mem_replicate] at hc
  rcases hc with ⟨_, rfl⟩ | hc
  · decide
  · exact isDigit_of_mem_toString n c hc

theorem not_mem_isoYear (y : Int) : 'T' ∉ (isoYear y).data := by
  intro h
  unfold isoYear at h
  split at h
  · exact absurd (isDigit_of_mem_padStart _ _ _ h) (by decide)
  · split at h
    · simp only [String.data_append, List.mem_append] at h
      rcases h with h | h
      · exact absurd h (by decide)
      · exact absurd (isDigit_of_mem_padStart _ _ _ h) (by decide)
    · simp only [String.data_append, List.mem_append] at h
      rcases h with h | h
      · exact absurd h (by decide)
      · exact absurd (isDigit_of_mem_padStart _ _ _ h) (by decide)

theorem not_mem_datePart (t : Int) : 'T' ∉ (datePart t).data := by
  intro h
  simp only [datePart, String.data_append, List.mem_append] at h
  rcases h with (((h | h) | h) | h) | h
  · exact not_mem_isoYear _ h
  · exact absurd h (by decide)
  · exact absurd (isDigit_of_mem_padStart _ _ _ h) (by decide)
  · exact absurd h (by decide)
  · exact absurd (isDigit_of_mem_padStart _ _ _ h) (by decide)

theorem isoDate_eq_datePart (t : Int) : isoDate t = datePart t := by
  have hd : (toISOString t).data = (datePart t).data ++ 'T' :: (timePart t).data := by
    simp [toISOString, String.data_append]
  unfold isoDate
  rw [hd, splitChars_append_sep 'T' _ _ (not_mem_datePart t)]
  rfl

theorem toISOString_known_values :
    toISOString 0 = "1970-01-01T00:00:00.000Z"
    ∧ toISOString (-1) = "1969-12-31T23:59:59.999Z"
    ∧ toISOString 1709251199999 = "2024-02-29T23:59:59.999Z"
    ∧ toISOString 951782400000 = "2000-02-29T00:00:00.000Z"
    ∧ toISOString (-2203891200000) = "1900-03-01T00:00:00.000Z"
    ∧ toISOString 1302796849000 = "2011-04-14T16:00:49.000Z"
    ∧ toISOString 8640000000000000 = "+275760-09-13T00:00:00.000Z"
    ∧ toISOString (-8640000000000000) = "-271821-04-20T00:00:00.000Z"
    ∧ toISOString (-62167219200000) = "0000-01-01T00:00:00.000Z"
    ∧ toISOString (-62167219200001) = "-000001-12-31T23:59:59.999Z"
    ∧ toISOString 253402300800000 = "+010000-01-01T00:00:00.000Z"
    ∧ isoDate 1302796849000 = "2011-04-14" := by
  decide

theorem hyphen_mem_isoDate (t : Int) : '-' ∈ (isoDate t).data := by
  rw [isoDate_eq_datePart]
  simp [datePart, String.data_append]

theorem mapThrowing_ok_forall₂ {α β : Type} (f : α → Except String β) :
    ∀ (l : List α) (bs : List β), mapThrowing f l = Except.ok bs →
      List.Forall₂ (fun a b => f a = Except.ok b) l bs
  | [], bs, h => by
    simp only [mapThrowing, Except.ok.injEq] at h
    subst h
    exact List.Forall₂.nil
  | a :: l, bs, h => by
    simp only [mapThrowing] at h
    cases ha : f a with
    | error e => simp [ha] at h
    | ok b =>
      cases hl : mapThrowing f l with
      | error e => simp [ha, hl] at h
      | ok bs' =>
        simp only [ha, hl, Except.ok.injEq] at h
        subst h
        exact List.Forall₂.cons ha (mapThrowing_ok_forall₂ f l bs' hl)

theorem mapThrowing_ok_of_forall {α β : Type} (f : α → Except String β) :
    ∀ l : List α, (∀ a ∈ l, ∃ b, f a = Except.ok b) → ∃ bs, mapThrowing f l = Except.ok bs
  | [], _ => ⟨[], rfl⟩
  | a :: l, h => by
    obtain ⟨b, hb⟩ := h a (List.mem_cons_self _ _)
    obtain ⟨bs, hbs⟩ := mapThrowing_ok_of_forall f l (fun x hx => h x (List.mem_cons_of_mem _ hx))
    exact ⟨b :: bs, by simp [mapThrowing, hb, hbs]⟩

theorem toCommitDatum_ok (c : RawCommit) (d : CommitDatum) (h : toCommitDatum c = Except.ok d) :
    utcDate c = some d.date ∧ c.authorLogin = some d.author ∧ '-' ∈ d.date.data := by
  unfold toCommitDatum at h
  unfold utcDate
  unfold isoDateOf at h ⊢
  cases hl : c.authorLogin with
  | none => simp [hl] at h
  | some login =>
    cases ht : c.authorTime.bind timeClip with
    | none => simp [hl, ht] at h
    | some v =>
      simp only [hl, ht, Except.ok.injEq] at h
      subst h
      exact ⟨rfl, rfl, hyphen_mem_isoDate v⟩

theorem dates_of_forall₂ : ∀ (cs : List RawCommit) (ds : List CommitDatum),
    List.Forall₂ (fun c d => toCommitDatum c = Except.ok d) cs ds →
      ds.map (fun d => d.date) = cs.filterMap utcDate
  | _, _, List.Forall₂.nil => rfl
  | _, _, List.Forall₂.cons h t => by
    have := (toCommitDatum_ok _ _ h).1
    simp [List.filterMap_cons, this, dates_of_forall₂ _ _ t]

theorem hyphen_of_forall₂ : ∀ (cs : List RawCommit) (ds : List CommitDatum),
    List.Forall₂ (fun c d => toCommitDatum c = Except.ok d) cs ds →
      ∀ d ∈ ds, '-' ∈ d.date.data
  | _, _, List.Forall₂.nil => by simp
  | _, _, List.Forall₂.cons h t => by
    intro d hd
    rcases List.mem_cons.1 hd with rfl | hd'
    · exact (toCommitDatum_ok _ _ h).2.2
    · exact hyphen_of_forall₂ _ _ t d hd'

theorem processCommitsPerDay_eq_tally (commitsData : List CommitDatum)
    (h : ∀ d ∈ commitsData, '-' ∈ d.date.data) :
    processCommitsPerDay commitsData =
      (tallyOf (commitsData.map (fun d => d.date))).map dayEntry := by
  have hfold : commitsData.foldl (fun acc c => bump acc c.date) []
      = (commitsData.map (fun d => d.date)).foldl bump [] := by
    rw [List.foldl_map]
  have hplain : ∀ k ∈ commitsData.map (fun d => d.date), k ∉ objectPrototypeKeys := by
    intro k hk
    obtain ⟨d, hd, rfl⟩ := List.mem_map.1 hk
    exact not_prototypeKey_of_hyphen _ (h d hd)
  unfold processCommitsPerDay
  rw [hfold, foldl_bump_eq_tallyOf _ hplain, objectEntries_of_no_index]
  · simp [List.map_map, Function.comp_def, asEntry, dayEntry]
  · intro p hp
    obtain ⟨q, hq, rfl⟩ := List.mem_map.1 hp
    simp only [tallyOf, List.mem_map] at hq
    obtain ⟨k, hk, rfl⟩ := hq
    rw [mem_firstAppearance] at hk
    obtain ⟨d, hd, rfl⟩ := List.mem_map.1 hk
    exact not_arrayIndex_of_hyphen _ (h d hd)

theorem commitsDataOf_ok (commits : List RawCommit) (r : CommitsData)
    (h : commitsDataOf commits = Except.ok r) :
    ∃ ds : List CommitDatum,
      List.Forall₂ (fun c d => toCommitDatum c = Except.ok d) (withAuthor commits) ds
      ∧ r = { commitsPerDay := processCommitsPerDay ds.reverse,
              topContributors := processTopContributors ds.reverse } := by
  unfold commitsDataOf buildCommitsData at h
  cases hm : mapThrowing toCommitDatum (commits.filter (fun c => c.authorLogin.isSome)) with
  | error e => simp [hm] at h
  | ok ds =>
    simp only [hm, Except.ok.injEq] at h
    exact ⟨ds, mapThrowing_ok_forall₂ _ _ _ hm, h.symm⟩

theorem commitsPerDay_eq_tally (commits : List RawCommit) (r : CommitsData)
    (h : commitsDataOf commits = Except.ok r) :
    r.commitsPerDay = (tallyOf (oldestFirstDates commits)).map dayEntry
    ∧ (oldestFirstDates commits).length = (withAuthor commits).length := by
  obtain ⟨ds, hf, rfl⟩ := commitsDataOf_ok commits r h
  have hd := dates_of_forall₂ _ _ hf
  have hh := hyphen_of_forall₂ _ _ hf
  have hdates : ds.reverse.map (fun d => d.date) = oldestFirstDates commits := by
    rw [List.map_reverse, hd, oldestFirstDates, List.filterMap_reverse]
  refine ⟨?_, ?_⟩
  · show processCommitsPerDay ds.reverse = _
    rw [processCommitsPerDay_eq_tally _ (fun d hd => hh d (List.mem_reverse.1 hd)), hdates]
  · rw [← hdates, List.length_map, List.length_reverse, ← hf.length_eq]

theorem firstAppearance_perm_dedup (ks : List String) :
    List.Perm (firstAppearance ks) ks.dedup :=
  (List.perm_ext_iff_of_nodup (nodup_firstAppearance ks) (List.nodup_dedup ks)).2
    (fun x => by rw [mem_firstAppearance, List.mem_dedup])

theorem sum_tallyOf (ks : List String) : ((tallyOf ks).map Prod.snd).sum = ks.length := by
  have h : (tallyOf ks).map Prod.snd = (firstAppearance ks).map (fun k => ks.count k) := by
    simp [tallyOf, List.map_map, Function.comp_def]
  rw [h, ((firstAppearance_perm_dedup ks).map _).sum_eq, List.sum_map_count_dedup_eq_length]

theorem count_oldestFirstDates (commits : List RawCommit) (d : String) :
    (oldestFirstDates commits).count d
      = (withAuthor commits).countP (fun c => utcDate c = some d) := by
  unfold oldestFirstDates
  rw [List.filterMap_reverse, List.count_reverse, List.count_filterMap]
  apply List.countP_congr
  intro c _
  simp

theorem commitsDataOf_total (commits : List RawCommit)
    (hvalid : ∀ c ∈ withAuthor commits, (utcDate c).isSome) :
    ∃ r, commitsDataOf commits = Except.ok r := by
  have hall : ∀ c ∈ commits.filter (fun c => c.authorLogin.isSome),
      ∃ d, toCommitDatum c = Except.ok d := by
    intro c hc
    have hv := hvalid c hc
    have ha : c.authorLogin.isSome = true := by simpa using (List.mem_filter.1 hc).2
    unfold utcDate at hv
    unfold toCommitDatum
    cases hl : c.authorLogin with
    | none => simp [hl] at ha
    | some login =>
      cases hi : isoDateOf c.authorTime with
      | error e => simp [hi, Except.toOption] at hv
      | ok d => exact ⟨_, rfl⟩
  obtain ⟨ds, hds⟩ := mapThrowing_ok_of_forall toCommitDatum _ hall
  exact ⟨{ commitsPerDay := processCommitsPerDay ds.reverse,
           topContributors := processTopContributors ds.reverse },
    by simp [commitsDataOf, buildCommitsData, hds]⟩

theorem commitsPerDay_dates (commits : List RawCommit) (r : CommitsData)
    (h : commitsDataOf commits = Except.ok r) :
    r.commitsPerDay.map (fun e => e.date) = firstAppearance (oldestFirstDates commits) := by
  rw [(commitsPerDay_eq_tally commits r h).1]
  simp [tallyOf, dayEntry, List.map_map, Function.comp_def]

/-- C1: in the result of `getCommitsData`, every count of `commits_per_day` is a number,
the counts sum to the number of commits with a resolvable author, and the count of each
date is the number of those commits whose UTC author date is that date; a result is
produced whenever those commits carry valid author dates. -/
theorem commitsPerDay_counts (commits : List RawCommit) :
    (∀ r, commitsDataOf commits = Except.ok r →
      (∃ counts : List Nat,
          r.commitsPerDay.map (fun e => e.commits) = counts.map JsVal.num
          ∧ counts.sum = (withAuthor commits).length)
      ∧ ∀ e ∈ r.commitsPerDay,
          e.commits = JsVal.num
            ((withAuthor commits).countP (fun c => utcDate c = some e.date)))
    ∧ ((∀ c ∈ withAuthor commits, (utcDate c).isSome) →
        ∃ r, commitsDataOf commits = Except.ok r) := by
  refine ⟨?_, ?_⟩
  · intro r h
    obtain ⟨hr, hlen⟩ := commitsPerDay_eq_tally commits r h
    refine ⟨⟨(tallyOf (oldestFirstDates commits)).map Prod.snd, ?_, ?_⟩, ?_⟩
    · rw [hr]
      simp [List.map_map, Function.comp_def, dayEntry]
    · rw [sum_tallyOf, hlen]
    · intro e he
      rw [hr] at he
      obtain ⟨p, hp, rfl⟩ := List.mem_map.1 he
      simp only [tallyOf, List.mem_map] at hp
      obtain ⟨k, _, rfl⟩ := hp
      simp only [dayEntry]
      rw [count_oldestFirstDates]
  · exact commitsDataOf_total commits

theorem commitsPerDay_counts_witness :
    (∃ counts : List Nat,
        [JsVal.num 2, JsVal.num 1] = counts.map JsVal.num
        ∧ counts.sum = (withAuthor
            [⟨some "B", some 86400000⟩, ⟨none, none⟩, ⟨some "A", some 5⟩,
             ⟨some "A", some 0⟩]).length)
    ∧ ∃ r, commitsDataOf
        [⟨some "B", some 86400000⟩, ⟨none, none⟩, ⟨some "A", some 5⟩, ⟨some "A", some 0⟩]
          = Except.ok r :=
  ⟨((commitsPerDay_counts
      [⟨some "B", some 86400000⟩, ⟨none, none⟩, ⟨some "A", some 5⟩, ⟨some "A", some 0⟩]).1
      { commitsPerDay := [⟨"1970-01-01", JsVal.num 2⟩, ⟨"1970-01-02", JsVal.num 1⟩],
        topContributors := [⟨"A", JsVal.num 2⟩, ⟨"B", JsVal.num 1⟩] } rfl).1,
   (commitsPerDay_counts
      [⟨some "B", some 86400000⟩, ⟨none, none⟩, ⟨some "A", some 5⟩, ⟨some "A", some 0⟩]).2
      (by decide)⟩

theorem utcDate_of_valid (login : Option String) (t : Int) (h : (timeClip t).isSome) :
    utcDate ⟨login, some t⟩ = some (isoDate t) := by
  unfold timeClip at h
  split at h
  · rename_i hr
    simp [utcDate, isoDateOf, timeClip, hr, Except.toOption]
  · simp at h

/-- C10: `commits_per_day` lists the distinct UTC author dates of the commits with a
resolvable author, each once, in the order in which the dates are first met in the
reversed (oldest-first) list; three commits that read, oldest first, A and A on one date
and then B on another date give that first date with 2 and the other date with 1. -/
theorem commitsPerDay_first_encounter_order (commits : List RawCommit) (r : CommitsData)
    (h : commitsDataOf commits = Except.ok r) :
    r.commitsPerDay.map (fun e => e.date) = firstAppearance (oldestFirstDates commits)
    ∧ (r.commitsPerDay.map (fun e => e.date)).Nodup
    ∧ (∀ d, d ∈ r.commitsPerDay.map (fun e => e.date) ↔ d ∈ oldestFirstDates commits)
    ∧ ∀ (a b : String) (t₁ t₁' t₂ : Int), (timeClip t₁).isSome → (timeClip t₁').isSome →
        (timeClip t₂).isSome → isoDate t₁' = isoDate t₁ → isoDate t₂ ≠ isoDate t₁ →
        ∃ r', commitsDataOf [⟨some b, some t₂⟩, ⟨some a, some t₁'⟩, ⟨some a, some t₁⟩]
            = Except.ok r'
          ∧ r'.commitsPerDay = [⟨isoDate t₁, JsVal.num 2⟩, ⟨isoDate t₂, JsVal.num 1⟩] := by
  have hdates := commitsPerDay_dates commits r h
  refine ⟨hdates, ?_, ?_, ?_⟩
  · rw [hdates]
    exact nodup_firstAppearance _
  · intro d
    rw [hdates, mem_firstAppearance]
  · intro a b t₁ t₁' t₂ h₁ h₁' h₂ hsame hdiff
    have hex : ∃ r', commitsDataOf
        [⟨some b, some t₂⟩, ⟨some a, some t₁'⟩, ⟨some a, some t₁⟩] = Except.ok r' := by
      apply commitsDataOf_total
      intro c hc
      simp only [withAuthor, List.mem_filter, List.mem_cons, List.mem_singleton,
        List.not_mem_nil, or_false] at hc
      rcases hc.1 with rfl | rfl | rfl
      · rw [utcDate_of_valid _ _ h₂]; rfl
      · rw [utcDate_of_valid _ _ h₁']; rfl
      · rw [utcDate_of_valid _ _ h₁]; rfl
    obtain ⟨r', hr'⟩ := hex
    refine ⟨r', hr', ?_⟩
    rw [(commitsPerDay_eq_tally _ r' hr').1]
    have hd : oldestFirstDates [⟨some b, some t₂⟩, ⟨some a, some t₁'⟩, ⟨some a, some t₁⟩]
        = [isoDate t₁, isoDate t₁, isoDate t₂] := by
      simp [oldestFirstDates, withAuthor, List.filterMap_cons, utcDate_of_valid _ _ h₁,
        utcDate_of_valid _ _ h₁', utcDate_of_valid _ _ h₂, hsame]
    have hdiff' : isoDate t₁ ≠ isoDate t₂ := fun e => hdiff e.symm
    rw [hd]
    simp [tallyOf, firstAppearance, dayEntry, hdiff, hdiff', List.filter_cons]

theorem commitsPerDay_first_encounter_order_witness :
    [DayEntry.mk "2024-03-01" (JsVal.num 2), DayEntry.mk "2024-03-02" (JsVal.num 1)].map
        (fun e => e.date)
      = firstAppearance (oldestFirstDates
          [⟨some "B", some 1709337600000⟩, ⟨some "A", some 1709294400000⟩,
           ⟨some "A", some 1709251200000⟩]) :=
  (commitsPerDay_first_encounter_order
    [⟨some "B", some 1709337600000⟩, ⟨some "A", some 1709294400000⟩,
     ⟨some "A", some 1709251200000⟩]
    { commitsPerDay := [⟨"2024-03-01", JsVal.num 2⟩, ⟨"2024-03-02", JsVal.num 1⟩],
      topContributors := [⟨"A", JsVal.num 2⟩, ⟨"B", JsVal.num 1⟩] } rfl).1

/-! ## Order of the daily counts -/

theorem charsBefore_trichotomy : ∀ a b : List Char,
    charsBefore a b = false → charsBefore b a = false → a = b
  | [], [], _, _ => rfl
  | [], _ :: _, h, _ => by simp [charsBefore] at h
  | _ :: _, [], _, h => by simp [charsBefore] at h
  | x :: xs, y :: ys, h₁, h₂ => by
    simp only [charsBefore, Bool.or_eq_false_iff, decide_eq_false_iff_not,
      Bool.and_eq_false_iff] at h₁ h₂
    have hxy : x = y := le_antisymm (not_lt.1 h₂.1) (not_lt.1 h₁.1)
    subst hxy
    have h₁' : charsBefore xs ys = false := by simpa using h₁.2
    have h₂' : charsBefore ys xs = false := by simpa using h₂.2
    rw [charsBefore_trichotomy xs ys h₁' h₂']

theorem dateBefore_of_not_before (a b : String) (h : ¬ dateBefore b a) (hne : a ≠ b) :
    dateBefore a b := by
  unfold dateBefore at h ⊢
  by_contra hab
  apply hne
  have h1 : charsBefore a.data b.data = false := by simpa using hab
  have h2 : charsBefore b.data a.data = false := by simpa using h
  have := charsBefore_trichotomy _ _ h1 h2
  exact String.ext this

theorem firstAppearance_sublist : ∀ ks : List String, List.Sublist (firstAppearance ks) ks
  | [] => List.Sublist.slnil
  | k :: ks =>
    List.Sublist.cons₂ k ((List.filter_sublist _).trans (firstAppearance_sublist ks))

theorem firstAppearance_ascending : ∀ ks : List String,
    List.Pairwise (fun a b => ¬ dateBefore b a) ks →
      List.Pairwise dateBefore (firstAppearance ks)
  | [], _ => List.Pairwise.nil
  | k :: ks, h => by
    rw [List.pairwise_cons] at h
    simp only [firstAppearance, List.pairwise_cons, List.mem_filter, decide_eq_true_eq]
    refine ⟨?_, (firstAppearance_ascending ks h.2).sublist (List.filter_sublist _)⟩
    intro x hx
    exact dateBefore_of_not_before k x (h.1 x ((mem_firstAppearance ks x).1 hx.1))
      (fun e => hx.2 e.symm)

/-- C8, on the code as it is: the order of `commits_per_day` follows the order of the
fetched list, not the dates. A list whose first (most recent) commit carries the author
date 2024-03-01 and whose second commit carries 2024-03-02 gives the entry of 2024-03-02
before the entry of 2024-03-01. -/
theorem commitsPerDay_not_ascending :
    ∃ r, commitsDataOf [⟨some "A", some 1709251200000⟩, ⟨some "B", some 1709337600000⟩]
        = Except.ok r
      ∧ r.commitsPerDay = [⟨"2024-03-02", JsVal.num 1⟩, ⟨"2024-03-01", JsVal.num 1⟩]
      ∧ ¬ List.Chain' (fun x y => dateBefore x.date y.date) r.commitsPerDay :=
  ⟨{ commitsPerDay := [⟨"2024-03-02", JsVal.num 1⟩, ⟨"2024-03-01", JsVal.num 1⟩],
     topContributors := [⟨"B", JsVal.num 1⟩, ⟨"A", JsVal.num 1⟩] }, rfl, rfl,
   fun hc => absurd (List.chain'_pair.1 hc) (by decide)⟩

/-- C8, amended: when the commits with a resolvable author are listed newest first by UTC
author date (no commit has an earlier date than a commit listed after it),
`commits_per_day` is in ascending order of date: the date of each entry is strictly
earlier than the date of every entry after it, the next one in particular. -/
theorem commitsPerDay_ascending_of_newest_first (commits : List RawCommit) (r : CommitsData)
    (h : commitsDataOf commits = Except.ok r)
    (hNewestFirst : List.Pairwise (fun a b => ¬ dateBefore a b)
      ((withAuthor commits).filterMap utcDate)) :
    List.Pairwise (fun x y => dateBefore x.date y.date) r.commitsPerDay
    ∧ List.Chain' (fun x y => dateBefore x.date y.date) r.commitsPerDay := by
  have hp : List.Pairwise (fun x y => dateBefore x.date y.date) r.commitsPerDay := by
    have hd := commitsPerDay_dates commits r h
    have hs : List.Pairwise (fun a b => ¬ dateBefore b a) (oldestFirstDates commits) := by
      unfold oldestFirstDates
      rw [List.filterMap_reverse, List.pairwise_reverse]
      exact hNewestFirst
    have := firstAppearance_ascending _ hs
    rw [← hd, List.pairwise_map] at this
    exact this
  exact ⟨hp, hp.chain'⟩

theorem commitsPerDay_ascending_of_newest_first_witness :
    List.Pairwise (fun x y => dateBefore x.date y.date)
        [DayEntry.mk "2024-03-01" (JsVal.num 2), DayEntry.mk "2024-03-02" (JsVal.num 1)]
    ∧ List.Chain' (fun x y => dateBefore x.date y.date)
        [DayEntry.mk "2024-03-01" (JsVal.num 2), DayEntry.mk "2024-03-02" (JsVal.num 1)] :=
  commitsPerDay_ascending_of_newest_first
    [⟨some "B", some 1709337600000⟩, ⟨some "A", some 1709294400000⟩,
     ⟨some "A", some 1709251200000⟩]
    { commitsPerDay := [⟨"2024-03-01", JsVal.num 2⟩, ⟨"2024-03-02", JsVal.num 1⟩],
      topContributors := [⟨"A", JsVal.num 2⟩, ⟨"B", JsVal.num 1⟩] } rfl (by decide)

/-! ## Top contributors: properties -/

theorem objectEntries_map_asEntry (l : List (String × Nat)) :
    objectEntries (l.map asEntry) = (objectEntries l).map asEntry := by
  unfold objectEntries
  rw [List.map_append, List.filter_map, List.filter_map]
  congr 1
  exact (List.map_insertionSort (fun a b : String × Nat => indexValue a ≤ indexValue b)
    (fun a b : String × JsVal => indexValue a ≤ indexValue b) asEntry _
    (fun a _ b _ => Iff.rfl)).symm

theorem sortDescending_map_asEntry (l : List (String × Nat)) :
    sortDescending (l.map asEntry) = (rankDescending l).map asEntry := by
  have hnum : allNumeric (l.map asEntry) = true := by
    unfold allNumeric
    rw [List.all_eq_true]
    intro p hp
    obtain ⟨q, _, rfl⟩ := List.mem_map.1 hp
    rfl
  unfold sortDescending rankDescending
  rw [if_pos hnum]
  exact (List.map_insertionSort (fun a b : String × Nat => b.2 ≤ a.2) staysBefore asEntry l
    (fun a _ b _ => Iff.rfl)).symm

theorem processTopContributors_eq_entriesRanking (commitsData : List CommitDatum)
    (h : ∀ c ∈ commitsData, c.author ∉ objectPrototypeKeys) :
    processTopContributors commitsData = entriesRanking commitsData := by
  have hfold : commitsData.foldl (fun acc c => bump acc c.author) []
      = (commitsData.map (fun c => c.author)).foldl bump [] := by
    rw [List.foldl_map]
  have hplain : ∀ k ∈ commitsData.map (fun c => c.author), k ∉ objectPrototypeKeys := by
    intro k hk
    obtain ⟨c, hc, rfl⟩ := List.mem_map.1 hk
    exact h c hc
  unfold processTopContributors entriesRanking
  rw [hfold, foldl_bump_eq_tallyOf _ hplain, objectEntries_map_asEntry,
    sortDescending_map_asEntry, ← List.map_take, List.map_map]
  rfl

theorem objectEntries_perm {β : Type} (o : List (String × β)) :
    List.Perm (objectEntries o) o := by
  unfold objectEntries
  exact ((List.perm_insertionSort _ _).append_right _).trans (List.filter_append_perm _ o)

theorem rankDescending_perm (l : List (String × Nat)) : List.Perm (rankDescending l) l :=
  List.perm_insertionSort _ l

theorem rankDescending_sorted (l : List (String × Nat)) :
    List.Pairwise (fun a b => b.2 ≤ a.2) (rankDescending l) :=
  List.sorted_insertionSort (fun a b : String × Nat => b.2 ≤ a.2) l

theorem rankDescending_stable (l : List (String × Nat)) (a b : String × Nat)
    (hab : b.2 ≤ a.2) (h : List.Sublist [a, b] l) : List.Sublist [a, b] (rankDescending l) :=
  List.pair_sublist_insertionSort hab h

theorem mem_of_pair_sublist_append {α : Type} {a x : α} {v : List α} :
    ∀ u : List α, a ∉ u → List.Sublist [a, x] (u ++ a :: v) → x ∈ v
  | [], _, h => by
    cases h with
    | cons _ h' => exact h'.subset (by simp)
    | cons₂ _ h' => exact h'.subset (by simp)
  | b :: u, ha, h => by
    have hab : a ≠ b := fun e => ha (by simp [e])
    have hau : a ∉ u := fun e => ha (List.mem_cons_of_mem _ e)
    cases h with
    | cons _ h' => exact mem_of_pair_sublist_append u hau h'
    | cons₂ _ _ => exact absurd rfl hab

theorem pair_sublist_total {α : Type} {a b : α} (hne : a ≠ b) :
    ∀ l : List α, a ∈ l → b ∈ l → List.Sublist [a, b] l ∨ List.Sublist [b, a] l
  | [], ha, _ => absurd ha (List.not_mem_nil _)
  | x :: t, ha, hb => by
    rcases List.mem_cons.1 ha with rfl | ha'
    · rcases List.mem_cons.1 hb with rfl | hb'
      · exact absurd rfl hne
      · exact Or.inl (List.Sublist.cons₂ _ (List.singleton_sublist.2 hb'))
    · rcases List.mem_cons.1 hb with rfl | hb'
      · exact Or.inr (List.Sublist.cons₂ _ (List.singleton_sublist.2 ha'))
      · rcases pair_sublist_total hne t ha' hb' with h | h
        · exact Or.inl (List.Sublist.cons _ h)
        · exact Or.inr (List.Sublist.cons _ h)

theorem pair_sublist_asymm {α : Type} {a b : α} :
    ∀ l : List α, l.Nodup → List.Sublist [a, b] l → List.Sublist [b, a] l → False
  | [], _, h, _ => by cases h
  | x :: t, hn, h₁, h₂ => by
    rw [List.nodup_cons] at hn
    cases h₁ with
    | cons _ h₁' =>
      cases h₂ with
      | cons _ h₂' => exact pair_sublist_asymm t hn.2 h₁' h₂'
      | cons₂ _ _ => exact hn.1 (h₁'.subset (by simp))
    | cons₂ _ h₁' =>
      cases h₂ with
      | cons _ h₂' => exact hn.1 (h₂'.subset (by simp))
      | cons₂ _ _ => exact hn.1 (h₁'.subset (by simp))

theorem eq_of_perm_of_pair_order {α : Type} :
    ∀ l₁ l₂ : List α, l₁.Nodup → l₂.Nodup → List.Perm l₁ l₂ →
      (∀ a b, List.Sublist [a, b] l₁ → List.Sublist [a, b] l₂) → l₁ = l₂
  | [], l₂, _, _, hp, _ => (List.nil_perm.1 hp).symm
  | a :: t, l₂, hn₁, hn₂, hp, hord => by
    have ha : a ∈ l₂ := hp.subset (List.mem_cons_self _ _)
    obtain ⟨u, v, rfl⟩ := List.append_of_mem ha
    have hau : a ∉ u := fun hmem =>
      (List.nodup_append.1 hn₂).2.2 hmem (List.mem_cons_self _ _)
    have hu : u = [] := by
      cases u with
      | nil => rfl
      | cons x u' =>
        exfalso
        have hxa : x ≠ a := fun e => hau (by simp [e])
        have hxt : x ∈ t := by
          have : x ∈ a :: t := hp.symm.subset (by simp)
          rcases List.mem_cons.1 this with e | h
          · exact absurd e hxa
          · exact h
        have hsub : List.Sublist [a, x] (a :: t) :=
          List.Sublist.cons₂ _ (List.singleton_sublist.2 hxt)
        have hxv : x ∈ v := mem_of_pair_sublist_append (x :: u') hau (hord a x hsub)
        exact (List.nodup_append.1 hn₂).2.2 (List.mem_cons_self _ _)
          (List.mem_cons_of_mem _ hxv)
    subst hu
    rw [List.nil_append] at hp hn₂ hord ⊢
    rw [List.nodup_cons] at hn₁ hn₂
    congr 1
    refine eq_of_perm_of_pair_order t v hn₁.2 hn₂.2 ((List.perm_cons a).1 hp) ?_
    intro b c hbc
    have hb : b ∈ t := hbc.subset (by simp)
    have hba : b ≠ a := fun e => hn₁.1 (e ▸ hb)
    cases hord b c (List.Sublist.cons _ hbc) with
    | cons _ h' => exact h'
    | cons₂ _ _ => exact absurd rfl hba

theorem rankDescending_unique (l sorted : List (String × Nat)) (hnodup : l.Nodup)
    (hperm : List.Perm sorted l)
    (hsorted : List.Pairwise (fun a b => b.2 ≤ a.2) sorted)
    (hstable : ∀ a b, a.2 = b.2 → List.Sublist [a, b] l → List.Sublist [a, b] sorted) :
    sorted = rankDescending l := by
  have hnr : (rankDescending l).Nodup := (rankDescending_perm l).nodup_iff.2 hnodup
  have hns : sorted.Nodup := hperm.nodup_iff.2 hnodup
  symm
  refine eq_of_perm_of_pair_order _ _ hnr hns ((rankDescending_perm l).trans hperm.symm) ?_
  intro a b hab
  have hne : a ≠ b := by
    have := hnr.sublist hab
    simpa using this
  have hle : b.2 ≤ a.2 := by
    have := (rankDescending_sorted l).sublist hab
    simpa using this
  have has : a ∈ sorted := hperm.symm.subset ((rankDescending_perm l).subset (hab.subset (by simp)))
  have hbs : b ∈ sorted := hperm.symm.subset ((rankDescending_perm l).subset (hab.subset (by simp)))
  rcases pair_sublist_total hne sorted has hbs with h | h
  · exact h
  · exfalso
    have hge : a.2 ≤ b.2 := by
      have := hsorted.sublist h
      simpa using this
    have heq : a.2 = b.2 := Nat.le_antisymm hge hle
    rcases pair_sublist_total hne l (hperm.subset has) (hperm.subset hbs) with hl | hl
    · exact pair_sublist_asymm sorted hns (hstable a b heq hl) h
    · exact pair_sublist_asymm _ hnr hab (rankDescending_stable l b a hge hl)

theorem tallyOf_nodup (ks : List String) : (tallyOf ks).Nodup := by
  unfold tallyOf
  refine (nodup_firstAppearance ks).map ?_
  intro a b hab
  exact congrArg Prod.fst hab

theorem rankDescending_entries_unique (ks : List String) (sorted : List (String × Nat))
    (hperm : List.Perm sorted (objectEntries (tallyOf ks)))
    (hsorted : List.Pairwise (fun a b => b.2 ≤ a.2) sorted)
    (hstable : ∀ a b, a.2 = b.2 → List.Sublist [a, b] (objectEntries (tallyOf ks)) →
      List.Sublist [a, b] sorted) :
    sorted = rankDescending (objectEntries (tallyOf ks)) :=
  rankDescending_unique _ sorted
    ((objectEntries_perm (tallyOf ks)).nodup_iff.2 (tallyOf_nodup ks)) hperm hsorted hstable

theorem take_le_drop {α : Type} (r : α → α → Prop) (l : List α) (n : Nat)
    (h : List.Pairwise r l) : ∀ x ∈ l.take n, ∀ y ∈ l.drop n, r x y := by
  rw [← List.take_append_drop n l, List.pairwise_append] at h
  exact h.2.2

theorem mem_tallyOf (ks : List String) (k : String) (h : k ∈ ks) :
    (k, ks.count k) ∈ tallyOf ks :=
  List.mem_map.2 ⟨k, (mem_firstAppearance ks k).2 h, rfl⟩

theorem entriesRanking_bounds (commitsData : List CommitDatum) :
    (entriesRanking commitsData).length ≤ 10
    ∧ (∃ counts : List Nat,
        (entriesRanking commitsData).map (fun e => e.commits) = counts.map JsVal.num
        ∧ List.Pairwise (fun a b => b ≤ a) counts
        ∧ counts.sum ≤ commitsData.length) := by
  refine ⟨by simp [entriesRanking, List.length_take], ?_⟩
  refine ⟨((rankDescending (objectEntries (tallyOf (commitsData.map (fun c => c.author))))).take
    10).map Prod.snd, ?_, ?_, ?_⟩
  · simp [entriesRanking, contributorEntry, List.map_map, Function.comp_def]
  · rw [List.pairwise_map]
    exact (rankDescending_sorted _).sublist (List.take_sublist _ _)
  · have hsub : List.Sublist
        (((rankDescending (objectEntries (tallyOf (commitsData.map (fun c => c.author))))).take
          10).map Prod.snd)
        ((rankDescending (objectEntries (tallyOf (commitsData.map (fun c => c.author))))).map
          Prod.snd) := (List.take_sublist _ _).map _
    have hle := hsub.sum_le_sum (fun a _ => Nat.zero_le a)
    have hperm : List.Perm
        ((rankDescending (objectEntries (tallyOf (commitsData.map (fun c => c.author))))).map
          Prod.snd)
        ((tallyOf (commitsData.map (fun c => c.author))).map Prod.snd) :=
      ((rankDescending_perm _).trans (objectEntries_perm _)).map _
    rw [hperm.sum_eq, sum_tallyOf, List.length_map] at hle
    exact hle

theorem entriesRanking_omitted (commitsData : List CommitDatum) (c : CommitDatum)
    (hc : c ∈ commitsData)
    (homitted : ∀ e ∈ entriesRanking commitsData, e.author ≠ c.author) :
    ∀ e ∈ entriesRanking commitsData, ∃ n, e.commits = JsVal.num n
      ∧ (commitsData.map (fun x => x.author)).count c.author ≤ n := by
  intro e he
  simp only [entriesRanking, List.mem_map] at he homitted
  obtain ⟨p, hp, rfl⟩ := he
  refine ⟨p.2, rfl, ?_⟩
  have hmem : (c.author, (commitsData.map (fun x => x.author)).count c.author)
      ∈ rankDescending (objectEntries (tallyOf (commitsData.map (fun x => x.author)))) :=
    ((rankDescending_perm _).trans (objectEntries_perm _)).mem_iff.2
      (mem_tallyOf _ _ (List.mem_map.2 ⟨c, hc, rfl⟩))
  rw [← List.take_append_drop 10
    (rankDescending (objectEntries (tallyOf (commitsData.map (fun x => x.author))))),
    List.mem_append] at hmem
  rcases hmem with hin | hout
  · exact absurd rfl (homitted _ ⟨_, hin, rfl⟩)
  · exact take_le_drop _ _ 10 (rankDescending_sorted _) p hp _ hout

theorem entriesRanking_eq_reference (commitsData : List CommitDatum)
    (h : ∀ c ∈ commitsData, isArrayIndex c.author = false) :
    entriesRanking commitsData = referenceRanking commitsData := by
  unfold entriesRanking referenceRanking
  rw [objectEntries_of_no_index]
  intro p hp
  simp only [tallyOf, List.mem_map] at hp
  obtain ⟨k, hk, rfl⟩ := hp
  rw [mem_firstAppearance] at hk
  obtain ⟨c, hc, rfl⟩ := List.mem_map.1 hk
  exact h c hc

theorem sortDescending_known_values :
    processTopContributors
        [⟨"zed", "2024-03-01"⟩, ⟨"amy", "2024-03-01"⟩, ⟨"amy", "2024-03-02"⟩,
         ⟨"constructor", "2024-03-02"⟩, ⟨"bob", "2024-03-03"⟩, ⟨"bob", "2024-03-03"⟩]
      = [⟨"amy", JsVal.num 2⟩, ⟨"bob", JsVal.num 2⟩, ⟨"zed", JsVal.num 1⟩,
         ⟨"constructor", JsVal.str "function Object() \x7b [native code] \x7d1"⟩]
    ∧ engineSort ([("a", 3), ("b", 1), ("c", 2), ("d", 2), ("e", 5), ("f", 1), ("g", 4)].map
          asEntry)
      = (rankDescending
          [("a", 3), ("b", 1), ("c", 2), ("d", 2), ("e", 5), ("f", 1), ("g", 4)]).map asEntry
    ∧ engineSort ([("a", 5), ("b", 4), ("c", 4), ("d", 2), ("e", 5), ("f", 1)].map asEntry)
      = (rankDescending
          [("a", 5), ("b", 4), ("c", 4), ("d", 2), ("e", 5), ("f", 1)]).map asEntry := by
  decide

theorem processTopContributors_length_le (commitsData : List CommitDatum) :
    (processTopContributors commitsData).length ≤ 10 := by
  simp [processTopContributors, List.length_take]

theorem processTopContributors_bounds_of_plain (commitsData : List CommitDatum)
    (h : ∀ c ∈ commitsData, c.author ∉ objectPrototypeKeys) :
    (processTopContributors commitsData).length ≤ 10
    ∧ (∃ counts : List Nat,
        (processTopContributors commitsData).map (fun e => e.commits) = counts.map JsVal.num
        ∧ List.Pairwise (fun a b => b ≤ a) counts
        ∧ counts.sum ≤ commitsData.length) := by
  rw [processTopContributors_eq_entriesRanking commitsData h]
  exact entriesRanking_bounds commitsData

/-- C2, on the code as it is: a login that names a member of `Object.prototype` is counted
with a string. For commits by `alice`, `constructor`, `bob`, `bob` (oldest first) the
result holds `alice` with 1, then `constructor` with a text, then `bob` with 2: the counts
are not all numbers, and the count 1 stands before the count 2. -/
theorem processTopContributors_inherited_login :
    processTopContributors
      [⟨"alice", "2024-03-01"⟩, ⟨"constructor", "2024-03-01"⟩, ⟨"bob", "2024-03-02"⟩,
       ⟨"bob", "2024-03-02"⟩]
      = [⟨"alice", JsVal.num 1⟩,
         ⟨"constructor", JsVal.str "function Object() \x7b [native code] \x7d1"⟩,
         ⟨"bob", JsVal.num 2⟩]
    ∧ ¬ ∃ counts : List Nat,
        (processTopContributors
          [⟨"alice", "2024-03-01"⟩, ⟨"constructor", "2024-03-01"⟩, ⟨"bob", "2024-03-02"⟩,
           ⟨"bob", "2024-03-02"⟩]).map (fun e => e.commits) = counts.map JsVal.num := by
  have h : processTopContributors
      [⟨"alice", "2024-03-01"⟩, ⟨"constructor", "2024-03-01"⟩, ⟨"bob", "2024-03-02"⟩,
       ⟨"bob", "2024-03-02"⟩]
      = [⟨"alice", JsVal.num 1⟩,
         ⟨"constructor", JsVal.str "function Object() \x7b [native code] \x7d1"⟩,
         ⟨"bob", JsVal.num 2⟩] := by decide
  refine ⟨h, ?_⟩
  rintro ⟨counts, hc⟩
  rw [h] at hc
  match counts, hc with
  | [], hc => simp at hc
  | [_], hc => simp at hc
  | _ :: _ :: _, hc => simp at hc

/-- C9, on the code as it is: a login that is an array index is listed by
`Object.entries` before the other logins. For commits by `bob` and then `42` (oldest
first), the result lists `42` before `bob`, while the ranking by first appearance lists
`bob` before `42`. -/
theorem processTopContributors_not_first_appearance :
    processTopContributors [⟨"bob", "2024-03-01"⟩, ⟨"42", "2024-03-02"⟩]
      = [⟨"42", JsVal.num 1⟩, ⟨"bob", JsVal.num 1⟩]
    ∧ referenceRanking [⟨"bob", "2024-03-01"⟩, ⟨"42", "2024-03-02"⟩]
      = [⟨"bob", JsVal.num 1⟩, ⟨"42", JsVal.num 1⟩]
    ∧ processTopContributors [⟨"bob", "2024-03-01"⟩, ⟨"42", "2024-03-02"⟩]
      ≠ referenceRanking [⟨"bob", "2024-03-01"⟩, ⟨"42", "2024-03-02"⟩] := by
  decide

/-- C9, amended: when no author login names a member of `Object.prototype`,
`top_contributors` is the first ten elements of the ranking obtained by listing the
distinct logins in the order of `Object.entries` (array-index logins first, in ascending
numeric order, then the other logins in order of first appearance in the oldest-first
list), pairing each with its commit count and sorting stably by descending count; when
moreover no login is an array index this is the ranking by first appearance; and no
omitted author has more commits than a listed one. -/
theorem processTopContributors_ranking (commitsData : List CommitDatum)
    (hplain : ∀ c ∈ commitsData, c.author ∉ objectPrototypeKeys) :
    processTopContributors commitsData = entriesRanking commitsData
    ∧ ((∀ c ∈ commitsData, isArrayIndex c.author = false) →
        processTopContributors commitsData = referenceRanking commitsData)
    ∧ ∀ c ∈ commitsData,
        (∀ e ∈ processTopContributors commitsData, e.author ≠ c.author) →
        ∀ e ∈ processTopContributors commitsData, ∃ n, e.commits = JsVal.num n
          ∧ (commitsData.map (fun x => x.author)).count c.author ≤ n := by
  have heq := processTopContributors_eq_entriesRanking commitsData hplain
  refine ⟨heq, ?_, ?_⟩
  · intro hidx
    rw [heq, entriesRanking_eq_reference commitsData hidx]
  · rw [heq]
    intro c hc
    exact entriesRanking_omitted commitsData c hc

theorem processTopContributors_ranking_witness :
    processTopContributors
        [⟨"bob", "2024-03-01"⟩, ⟨"42", "2024-03-02"⟩, ⟨"alice", "2024-03-02"⟩,
         ⟨"alice", "2024-03-03"⟩]
      = entriesRanking
        [⟨"bob", "2024-03-01"⟩, ⟨"42", "2024-03-02"⟩, ⟨"alice", "2024-03-02"⟩,
         ⟨"alice", "2024-03-03"⟩] :=
  (processTopContributors_ranking
    [⟨"bob", "2024-03-01"⟩, ⟨"42", "2024-03-02"⟩, ⟨"alice", "2024-03-02"⟩,
     ⟨"alice", "2024-03-03"⟩] (by decide)).1

/-! ## Contributor count: properties -/

theorem sum_range_succ_shift (f : Nat → Nat) (j : Nat) :
    ((List.range (j + 1)).map f).sum = f 0 + ((List.range j).map (fun i => f (i + 1))).sum := by
  rw [List.range_succ_eq_map]
  simp [List.map_map, Function.comp_def]

theorem getContributorsCountLoop_spec {κ : Type} (pages : Nat → Except String (List κ))
    (j : Nat) : ∀ (fuel c p : Nat), j < fuel →
      (∀ i, i < j → ∃ l, pages (p + i) = Except.ok l ∧ l.length = 100) →
      (∀ l, pages (p + j) = Except.ok l → l.length < 100) →
      getContributorsCountLoop pages fuel c p =
        some (c + ((List.range (j + 1)).map (fun i => outcomeSize (pages (p + i)))).sum) := by
  induction j with
  | zero =>
    intro fuel c p hf _ hlast
    obtain ⟨fuel, rfl⟩ : ∃ n, fuel = n + 1 := ⟨fuel - 1, by omega⟩
    have hlast0 := hlast
    simp only [Nat.add_zero] at hlast0
    have hr : List.range (0 + 1) = [0] := rfl
    simp only [getContributorsCountLoop, hr, List.map_cons, List.map_nil,
      List.sum_cons, List.sum_nil, Nat.add_zero]
    cases hp : pages p with
    | error e => simp [outcomeSize]
    | ok l =>
      have hl := hlast0 l hp
      by_cases h0 : l.length = 0
      · simp [outcomeSize, h0]
      · simp [outcomeSize, h0, hl]
  | succ j ih =>
    intro fuel c p hf hfull hlast
    obtain ⟨fuel, rfl⟩ : ∃ n, fuel = n + 1 := ⟨fuel - 1, by omega⟩
    obtain ⟨l, hp, hl⟩ := hfull 0 (by omega)
    simp only [Nat.add_zero] at hp
    rw [sum_range_succ_shift]
    simp only [getContributorsCountLoop, hp, Nat.add_zero]
    have h0 : ¬ l.length = 0 := by omega
    have h1 : ¬ l.length < 100 := by omega
    simp only [h0, h1, if_false]
    rw [ih fuel (c + l.length) (p + 1) (by omega)]
    · simp only [outcomeSize]
      have : ∀ i, p + 1 + i = p + (i + 1) := fun i => by omega
      simp only [this, Nat.add_assoc]
    · intro i hi
      have := hfull (i + 1) (by omega)
      rwa [show p + 1 + i = p + (i + 1) by omega]
    · intro l' hl'
      apply hlast l'
      rwa [show p + (j + 1) = p + 1 + j by omega]

/-- C3: when the first outcome that is not a full page of 100 entries is the one of page
`k` (an error, or a page of fewer than 100 entries), `getContributorsCount` ends after `k`
requests and returns the sum of the sizes of the outcomes of pages 1 to `k`, an error
counting for 0; an error met with `n` entries counted returns `n`; page sizes
`[100, 100, 37]` give 237 and `[100, 0]` give 100. -/
theorem getContributorsCount_sums_pages {κ : Type} (pages : Nat → Except String (List κ))
    (k fuel : Nat) (hk : 1 ≤ k) (hfuel : k ≤ fuel)
    (hfull : ∀ i, 1 ≤ i → i < k → ∃ l, pages i = Except.ok l ∧ l.length = 100)
    (hlast : ∀ l, pages k = Except.ok l → l.length < 100) :
    getContributorsCount pages fuel = some (sizeOfPages pages k)
    ∧ (∀ (n page more : Nat) (e : String), pages page = Except.error e →
        getContributorsCountLoop pages (more + 1) n page = some n)
    ∧ getContributorsCount (servePages [pageOfSize 100, pageOfSize 100, pageOfSize 37]) 3
        = some 237
    ∧ getContributorsCount (servePages [pageOfSize 100, pageOfSize 0]) 2 = some 100 := by
  refine ⟨?_, ?_, by decide, by decide⟩
  · obtain ⟨j, rfl⟩ : ∃ j, k = j + 1 := ⟨k - 1, by omega⟩
    unfold getContributorsCount sizeOfPages
    rw [getContributorsCountLoop_spec pages j fuel 0 1 (by omega)]
    · simp only [Nat.zero_add]
      have : ∀ i, 1 + i = i + 1 := fun i => by omega
      simp only [this]
    · intro i hi
      have := hfull (1 + i) (by omega) (by omega)
      exact this
    · intro l hl
      apply hlast l
      rwa [show j + 1 = 1 + j by omega]
  · intro n page more e he
    simp [getContributorsCountLoop, he]

theorem getContributorsCount_sums_pages_witness :
    getContributorsCount (servePages [pageOfSize 100, pageOfSize 100, Except.error "HttpError"]) 5
      = some (sizeOfPages
          (servePages [pageOfSize 100, pageOfSize 100, Except.error "HttpError"]) 3) :=
  (getContributorsCount_sums_pages
    (servePages [pageOfSize 100, pageOfSize 100, Except.error "HttpError"]) 3 5
    (by decide) (by decide)
    (by
      intro i h1 h2
      interval_cases i
      · exact ⟨List.replicate 100 (), rfl, by decide⟩
      · exact ⟨List.replicate 100 (), rfl, by decide⟩)
    (by
      intro l hl
      exact absurd hl (by simp [servePages]))).1

/-! ## The controller and the aggregator: properties -/

theorem mapThrowing_error_of_mem {α β : Type} (f : α → Except String β) :
    ∀ (l : List α) (a : α) (e : String), a ∈ l → f a = Except.error e →
      ∃ e', mapThrowing f l = Except.error e'
  | [], _, _, h, _ => absurd h (List.not_mem_nil _)
  | b :: l, a, e, h, he => by
    rcases List.mem_cons.1 h with rfl | h'
    · exact ⟨e, by simp [mapThrowing, he]⟩
    · cases hb : f b with
      | error e1 => exact ⟨e1, by simp [mapThrowing, hb]⟩
      | ok vb =>
        obtain ⟨e2, h2⟩ := mapThrowing_error_of_mem f l a e h' he
        exact ⟨e2, by simp [mapThrowing, hb, h2]⟩

theorem isoDateOf_error_iff (t : Option Int) :
    (∃ e, isoDateOf t = Except.error e) ↔ t.bind timeClip = none := by
  unfold isoDateOf
  cases h : t.bind timeClip with
  | none => simp
  | some v => simp

theorem trendPoint_of_ne_null (parseInt : Option Json → Option Int) (item : Json)
    (hi : item ≠ Json.null) :
    trendPoint parseInt item =
      match item.prop "value" with
      | none => Except.error "Cannot read properties of undefined (reading \x270\x27)"
      | some Json.null => Except.error "Cannot read properties of null (reading \x270\x27)"
      | some v =>
        match isoDateOf ((parseInt (item.prop "time")).map (fun n => n * 1000)) with
        | Except.error e => Except.error e
        | Except.ok d => Except.ok { popularity := v.first, date := d } := by
  cases item with
  | null => exact absurd rfl hi
  | bool b => rfl
  | num n => rfl
  | str s => rfl
  | arr items => rfl
  | obj fields => rfl

theorem trendPoint_throws_iff (parseInt : Option Json → Option Int) (item : Json) :
    (∃ e, trendPoint parseInt item = Except.error e) ↔ ItemThrows parseInt item := by
  unfold ItemThrows
  by_cases hi : item = Json.null
  · subst hi
    simp [trendPoint]
  · rw [trendPoint_of_ne_null parseInt item hi]
    cases hv : item.prop "value" with
    | none => simp [hi]
    | some v =>
      have hdate := isoDateOf_error_iff ((parseInt (item.prop "time")).map (fun n => n * 1000))
      cases v with
      | null => simp [hi]
      | bool b =>
        simp only [hi, false_or, reduceCtorEq, Option.some.injEq]
        rw [← hdate]
        cases isoDateOf ((parseInt (item.prop "time")).map (fun n => n * 1000)) <;> simp
      | num n =>
        simp only [hi, false_or, reduceCtorEq, Option.some.injEq]
        rw [← hdate]
        cases isoDateOf ((parseInt (item.prop "time")).map (fun n => n * 1000)) <;> simp
      | str s =>
        simp only [hi, false_or, reduceCtorEq, Option.some.injEq]
        rw [← hdate]
        cases isoDateOf ((parseInt (item.prop "time")).map (fun n => n * 1000)) <;> simp
      | arr items =>
        simp only [hi, false_or, reduceCtorEq, Option.some.injEq]
        rw [← hdate]
        cases isoDateOf ((parseInt (item.prop "time")).map (fun n => n * 1000)) <;> simp
      | obj fields =>
        simp only [hi, false_or, reduceCtorEq, Option.some.injEq]
        rw [← hdate]
        cases isoDateOf ((parseInt (item.prop "time")).map (fun n => n * 1000)) <;> simp

theorem mapThrowing_length {α β : Type} (f : α → Except String β) :
    ∀ (l : List α) (bs : List β), mapThrowing f l = Except.ok bs → bs.length = l.length
  | [], bs, h => by
    simp only [mapThrowing, Except.ok.injEq] at h
    subst h
    rfl
  | a :: l, bs, h => by
    simp only [mapThrowing] at h
    cases ha : f a with
    | error e => simp [ha] at h
    | ok b =>
      cases hl : mapThrowing f l with
      | error e => simp [ha, hl] at h
      | ok bs' =>
        simp only [ha, hl, Except.ok.injEq] at h
        subst h
        simp [mapThrowing_length f l bs' hl]

theorem trendsPromise_of_array (parsed : Json) (items : List Json)
    (h : timelineDataOf parsed = some (Json.arr items)) :
    trendsPromise (TrendsOutcome.results (Except.ok parsed)) = Except.ok parsed := by
  unfold timelineDataOf at h
  cases hd : parsed.prop "default" with
  | none => simp [hd] at h
  | some d =>
    have h' : d.prop "timelineData" = some (Json.arr items) := by simpa [hd] using h
    have hp : parsed.truthy = true := by
      cases parsed <;> first | rfl | simp [Json.prop] at hd
    have hdt : d.truthy = true := by
      cases d <;> first | rfl | simp [Json.prop] at h'
    have ha : (Json.arr items).truthy = true := rfl
    simp only [trendsPromise, timelineDataOf, hd, Option.some_bind, h', truthyOrUndefined, hp,
      hdt, ha, Bool.not_true, Bool.or_self, Bool.false_eq_true, if_false]

theorem getGoogleTrendsData_unusable (parseInt : Option Json → Option Int)
    (outcome : TrendsOutcome) (h : TrendsUnusable parseInt outcome) :
    getGoogleTrendsData parseInt outcome = [] := by
  rcases h with ⟨err, rfl⟩ | ⟨m, rfl⟩ | ⟨parsed, rfl, hnone⟩ | ⟨parsed, items, item, rfl, harr, hmem, hthrow⟩
  · rfl
  · rfl
  · unfold getGoogleTrendsData
    cases hp : trendsPromise (TrendsOutcome.results (Except.ok parsed)) with
    | error e => rfl
    | ok result =>
      have hr : result = parsed := by
        simp only [trendsPromise] at hp
        split at hp
        · cases hp
        · cases hp
          rfl
      subst hr
      cases ht : timelineDataOf result with
      | none => simp only
      | some t =>
        cases t with
        | arr items => exact absurd ht (hnone items)
        | null => simp only
        | bool b => simp only
        | num n => simp only
        | str s => simp only
        | obj fields => simp only
  · obtain ⟨e, he⟩ := (trendPoint_throws_iff parseInt item).2 hthrow
    obtain ⟨e', he'⟩ := mapThrowing_error_of_mem (trendPoint parseInt) items item e hmem he
    unfold getGoogleTrendsData
    rw [trendsPromise_of_array parsed items harr]
    simp only [harr, he']

theorem getGoogleTrendsData_length (parseInt : Option Json → Option Int) (parsed : Json)
    (items : List Json) (harr : timelineDataOf parsed = some (Json.arr items))
    (hno : ∀ item ∈ items, ¬ ItemThrows parseInt item) :
    (getGoogleTrendsData parseInt (TrendsOutcome.results (Except.ok parsed))).length
      = items.length := by
  have hall : ∀ item ∈ items, ∃ p, trendPoint parseInt item = Except.ok p := by
    intro item hi
    cases hp : trendPoint parseInt item with
    | error e => exact absurd ((trendPoint_throws_iff parseInt item).1 ⟨e, hp⟩) (hno item hi)
    | ok p => exact ⟨p, rfl⟩
  obtain ⟨ps, hps⟩ := mapThrowing_ok_of_forall (trendPoint parseInt) items hall
  unfold getGoogleTrendsData
  rw [trendsPromise_of_array parsed items harr]
  simp only [harr, hps]
  exact mapThrowing_length _ _ _ hps

/-- C6: without a configured credential (`TOKEN` undefined or empty) the handler answers
400 with `error: "GitHub token is required"`; with a credential and a missing (undefined
or empty) query parameter it answers 400 with `error: "Repository query is required"`; in
both cases no call to `getData` is made, whatever the upstream is. -/
theorem getRepositoryData_rejects_missing_input {κ : Type} (env : Env κ) (fuel : Nat)
    (token : String) (hToken : token ≠ "") :
    (∀ query, getRepositoryData env fuel none query =
        some { response := { status := 400, body := Body.error "GitHub token is required" }
               aggregatorCalls := [] })
    ∧ (∀ query, getRepositoryData env fuel (some "") query =
        some { response := { status := 400, body := Body.error "GitHub token is required" }
               aggregatorCalls := [] })
    ∧ getRepositoryData env fuel (some token) none =
        some { response := { status := 400, body := Body.error "Repository query is required" }
               aggregatorCalls := [] }
    ∧ getRepositoryData env fuel (some token) (some (QueryValue.str "")) =
        some { response := { status := 400, body := Body.error "Repository query is required" }
               aggregatorCalls := [] } := by
  refine ⟨fun _ => rfl, fun _ => rfl, ?_, ?_⟩
  · simp [getRepositoryData, tokenGiven, hToken, queryGiven]
  · simp [getRepositoryData, tokenGiven, hToken, queryGiven]

theorem getRepositoryData_rejects_missing_input_witness :
    getRepositoryData (echoEnv [] (TrendsOutcome.failure "timeout")) 0 (some "ghp_abc") none =
      some { response := { status := 400, body := Body.error "Repository query is required" }
             aggregatorCalls := [] } :=
  (getRepositoryData_rejects_missing_input (echoEnv [] (TrendsOutcome.failure "timeout")) 0
    "ghp_abc" (by decide)).2.2.1

theorem failsWith_of_try {κ : Type} (env : Env κ) (fuel : Nat) (repository m : String)
    (h : getDataTry env fuel repository = some (Except.error m)) :
    FailsWith env fuel repository m := by
  have hg : getData env fuel (QueryValue.str repository)
      = some (Except.error ("Failed to fetch repository data: " ++ m)) := by
    simp [getData, h]
  refine ⟨hg, ?_⟩
  intro token ht hr
  simp [getRepositoryData, tokenGiven, ht, queryGiven, hr, hg]

/-- C5: when the metadata fetch, the open-issues fetch, the releases fetch, the languages
fetch or the commit-list fetch is reached and fails with cause message `m`, `getData`
throws one error with message `"Failed to fetch repository data: " ++ m`, returns no
report, and the handler answers 500 with that message as `error`. -/
theorem getData_fatal_failures {κ : Type} (env : Env κ) (fuel : Nat)
    (repository m owner : String) (repo : Option String)
    (hparse : parseIdentifier repository = (owner, repo)) :
    (env.reposGet owner repo = Except.error m → FailsWith env fuel repository m)
    ∧ (∀ repoData, env.reposGet owner repo = Except.ok repoData →
        env.listIssues owner repo = Except.error m → FailsWith env fuel repository m)
    ∧ (∀ repoData issues, env.reposGet owner repo = Except.ok repoData →
        getLatestOpenIssues env owner repo = Except.ok issues →
        env.listReleases owner repo = Except.error m → FailsWith env fuel repository m)
    ∧ (∀ repoData issues releases, env.reposGet owner repo = Except.ok repoData →
        getLatestOpenIssues env owner repo = Except.ok issues →
        getLastReleases env owner repo = Except.ok releases →
        env.listLanguages owner repo = Except.error m → FailsWith env fuel repository m)
    ∧ (∀ repoData issues releases languages contributors,
        env.reposGet owner repo = Except.ok repoData →
        getLatestOpenIssues env owner repo = Except.ok issues →
        getLastReleases env owner repo = Except.ok releases →
        getLanguages env owner repo = Except.ok languages →
        getContributorsCount (env.listContributors owner repo) fuel = some contributors →
        env.listCommits owner repo = Except.error m → FailsWith env fuel repository m) := by
  refine ⟨?_, ?_, ?_, ?_, ?_⟩
  · intro h
    apply failsWith_of_try
    simp [getDataTry, hparse, h]
  · intro rd h1 h2
    apply failsWith_of_try
    simp [getDataTry, hparse, h1, getLatestOpenIssues, h2]
  · intro rd is h1 h2 h3
    apply failsWith_of_try
    simp [getDataTry, hparse, h1, h2, getLastReleases, h3]
  · intro rd is rs h1 h2 h3 h4
    apply failsWith_of_try
    simp [getDataTry, hparse, h1, h2, h3, getLanguages, h4]
  · intro rd is rs ls n h1 h2 h3 h4 h5 h6
    apply failsWith_of_try
    simp [getDataTry, hparse, h1, h2, h3, h4, h5, getCommitsData, h6]

theorem getData_fatal_failures_witness :
    FailsWith (failingEnv 4 "Server Error") 2 "octocat/hello" "Server Error" :=
  (getData_fatal_failures (failingEnv 4 "Server Error") 2 "octocat/hello" "Server Error"
    "octocat" (some "hello") (by decide)).2.2.2.2
    { name := "octocat", description := some "hello", stargazers_count := 0, forks_count := 0,
      created_at := "", updated_at := "", homepage := none } [] [] [] 137
    rfl rfl rfl rfl (by decide) rfl

/-- C4, on the code as it is: a timeline item that is malformed without making the
callback throw is kept. With the time `"0"`, the value `[]` gives one point whose
popularity is `undefined`, and the value `"hi"` gives one point whose popularity is `"h"`:
the series returned is not empty. -/
theorem getGoogleTrendsData_keeps_malformed_items :
    getGoogleTrendsData parseIntOfDigits
        (TrendsOutcome.results (Except.ok (payloadOfItem (Json.str "0") (Json.arr []))))
      = [{ popularity := none, date := "1970-01-01" }]
    ∧ getGoogleTrendsData parseIntOfDigits
        (TrendsOutcome.results (Except.ok (payloadOfItem (Json.str "0") (Json.str "hi"))))
      = [{ popularity := some (Json.str "h"), date := "1970-01-01" }]
    ∧ getGoogleTrendsData parseIntOfDigits
        (TrendsOutcome.results (Except.ok (payloadOfItem (Json.str "0") (Json.arr [])))) ≠ [] :=
  ⟨rfl, rfl, fun h => List.cons_ne_nil _ _ h⟩

/-- C4, amended: when the trend call ends in an error, an unparsable payload, a payload in
which `default.timelineData` is missing or is no array, or a timeline with an item on
which the callback of `map` throws, `getGoogleTrendsData` returns `[]`, and when all the
other steps of `getData` succeed, `getData` returns a report whose `topic_interest` is
`[]`, which the handler sends with status 200. The callback throws on exactly the items
that are `null`, whose `value` is `undefined` or `null`, or whose `time` gives no valid
date; a timeline without such an item yields one point for each of its items. -/
theorem getGoogleTrendsData_never_fatal {κ : Type} (env : Env κ) (fuel : Nat)
    (repository owner : String) (repo : Option String)
    (repoData : RepoData) (issues : List IssueSummary) (releases : List ReleaseSummary)
    (languages : List LanguageEntry) (contributors : Nat) (commitsData : CommitsData)
    (hparse : parseIdentifier repository = (owner, repo))
    (hbad : TrendsUnusable env.parseInt (env.interestOverTime repo))
    (h1 : env.reposGet owner repo = Except.ok repoData)
    (h2 : getLatestOpenIssues env owner repo = Except.ok issues)
    (h3 : getLastReleases env owner repo = Except.ok releases)
    (h4 : getLanguages env owner repo = Except.ok languages)
    (h5 : getContributorsCount (env.listContributors owner repo) fuel = some contributors)
    (h6 : getCommitsData env owner repo = Except.ok commitsData) :
    getGoogleTrendsData env.parseInt (env.interestOverTime repo) = []
    ∧ (∃ report, getData env fuel (QueryValue.str repository) = some (Except.ok report)
        ∧ report.topic_interest = []
        ∧ ∀ token, token ≠ "" → repository ≠ "" →
            getRepositoryData env fuel (some token) (some (QueryValue.str repository))
              = some { response := { status := 200, body := Body.report report }
                       aggregatorCalls := [(token, QueryValue.str repository)] })
    ∧ (∀ (parseInt : Option Json → Option Int) (item : Json),
        (∃ e, trendPoint parseInt item = Except.error e) ↔ ItemThrows parseInt item)
    ∧ ∀ (parseInt : Option Json → Option Int) (parsed : Json) (items : List Json),
        timelineDataOf parsed = some (Json.arr items) →
        (∀ item ∈ items, ¬ ItemThrows parseInt item) →
        (getGoogleTrendsData parseInt (TrendsOutcome.results (Except.ok parsed))).length
          = items.length := by
  have ht := getGoogleTrendsData_unusable _ _ hbad
  refine ⟨ht, ?_, trendPoint_throws_iff, getGoogleTrendsData_length⟩
  have hg : getDataTry env fuel repository = some (Except.ok
      { repoName := repoData.name
        description := repoData.description
        stars := repoData.stargazers_count
        forks := repoData.forks_count
        created_at := repoData.created_at
        updated_at := repoData.updated_at
        homepage := repoData.homepage
        latest_open_issues := issues
        releases := releases
        languages := languages
        contributors := contributors
        latest_release := releases.head?.map (fun r => r.release)
        commits_per_day := commitsData.commitsPerDay
        top_contributors := commitsData.topContributors
        topic_interest := [] }) := by
    simp [getDataTry, hparse, h1, h2, h3, h4, h5, h6, ht]
  refine ⟨_, by rw [getData, hg], rfl, ?_⟩
  intro token htok hrep
  simp [getRepositoryData, tokenGiven, htok, queryGiven, hrep, getData, hg]

theorem getGoogleTrendsData_never_fatal_witness :
    getGoogleTrendsData parseIntOfDigits
        (TrendsOutcome.results (Except.ok (payloadOfItem (Json.str "soon") (Json.arr [])))) = []
    ∧ ∃ report, getData
          ({ echoEnv [] (TrendsOutcome.results
                (Except.ok (payloadOfItem (Json.str "soon") (Json.arr []))))
             with parseInt := parseIntOfDigits })
          2 (QueryValue.str "octocat/hello") = some (Except.ok report)
        ∧ report.topic_interest = []
        ∧ getRepositoryData
              ({ echoEnv [] (TrendsOutcome.results
                    (Except.ok (payloadOfItem (Json.str "soon") (Json.arr []))))
                 with parseInt := parseIntOfDigits })
              2 (some "ghp_abc") (some (QueryValue.str "octocat/hello"))
            = some { response := { status := 200, body := Body.report report }
                     aggregatorCalls := [("ghp_abc", QueryValue.str "octocat/hello")] } :=
  have h := getGoogleTrendsData_never_fatal
    ({ echoEnv [] (TrendsOutcome.results
          (Except.ok (payloadOfItem (Json.str "soon") (Json.arr []))))
       with parseInt := parseIntOfDigits }) 2
    "octocat/hello" "octocat" (some "hello")
    { name := "octocat", description := some "hello", stargazers_count := 0, forks_count := 0,
      created_at := "", updated_at := "", homepage := none } [] [] [] 137
    { commitsPerDay := [], topContributors := [] }
    (by decide)
    (Or.inr (Or.inr (Or.inr ⟨payloadOfItem (Json.str "soon") (Json.arr []),
      [Json.obj [("time", Json.str "soon"), ("value", Json.arr [])]],
      Json.obj [("time", Json.str "soon"), ("value", Json.arr [])],
      rfl, rfl, List.mem_singleton.2 rfl, Or.inr (Or.inr (Or.inr rfl))⟩)))
    rfl rfl rfl rfl (by decide) rfl
  ⟨h.1, h.2.1.elim fun report hr =>
    ⟨report, hr.1, hr.2.1, hr.2.2 "ghp_abc" (by decide) (by decide)⟩⟩

/-- C7, on the code as it is: an identifier without `/`, with an empty owner or with an
empty name is not refused. On an upstream that accepts every request, `getData` returns a
report for `"octocat"`, for `"/hello"` and for `"octocat/"`, and the metadata fetch has
received the segments as owner and name (`undefined` when there is no `/`). -/
theorem getData_accepts_malformed_identifier :
    (∃ report, getData (echoEnv [] (TrendsOutcome.failure "timeout")) 2
        (QueryValue.str "octocat") = some (Except.ok report)
      ∧ report.repoName = "octocat" ∧ report.description = none)
    ∧ (∃ report, getData (echoEnv [] (TrendsOutcome.failure "timeout")) 2
        (QueryValue.str "/hello") = some (Except.ok report)
      ∧ report.repoName = "" ∧ report.description = some "hello")
    ∧ (∃ report, getData (echoEnv [] (TrendsOutcome.failure "timeout")) 2
        (QueryValue.str "octocat/") = some (Except.ok report)
      ∧ report.repoName = "octocat" ∧ report.description = some "") :=
  ⟨⟨_, rfl, rfl, rfl⟩, ⟨_, rfl, rfl, rfl⟩, ⟨_, rfl, rfl, rfl⟩⟩

theorem getDataTry_error {κ : Type} (env : Env κ) (fuel : Nat) (repository m : String)
    (h : getDataTry env fuel repository = some (Except.error m)) :
    env.reposGet (parseIdentifier repository).1 (parseIdentifier repository).2 = Except.error m
    ∨ getLatestOpenIssues env (parseIdentifier repository).1 (parseIdentifier repository).2
        = Except.error m
    ∨ getLastReleases env (parseIdentifier repository).1 (parseIdentifier repository).2
        = Except.error m
    ∨ getLanguages env (parseIdentifier repository).1 (parseIdentifier repository).2
        = Except.error m
    ∨ getCommitsData env (parseIdentifier repository).1 (parseIdentifier repository).2
        = Except.error m := by
  unfold getDataTry at h
  simp only at h
  cases h1 : env.reposGet (parseIdentifier repository).1 (parseIdentifier repository).2 with
  | error e =>
    simp only [h1, Option.some.injEq, Except.error.injEq] at h
    exact Or.inl (by rw [h])
  | ok repoData =>
  cases h2 : getLatestOpenIssues env (parseIdentifier repository).1
      (parseIdentifier repository).2 with
  | error e =>
    simp only [h1, h2, Option.some.injEq, Except.error.injEq] at h
    exact Or.inr (Or.inl (by rw [h]))
  | ok issues =>
  cases h3 : getLastReleases env (parseIdentifier repository).1
      (parseIdentifier repository).2 with
  | error e =>
    simp only [h1, h2, h3, Option.some.injEq, Except.error.injEq] at h
    exact Or.inr (Or.inr (Or.inl (by rw [h])))
  | ok releases =>
  cases h4 : getLanguages env (parseIdentifier repository).1
      (parseIdentifier repository).2 with
  | error e =>
    simp only [h1, h2, h3, h4, Option.some.injEq, Except.error.injEq] at h
    exact Or.inr (Or.inr (Or.inr (Or.inl (by rw [h]))))
  | ok languages =>
  cases h5 : getContributorsCount
      (env.listContributors (parseIdentifier repository).1 (parseIdentifier repository).2)
      fuel with
  | none => simp [h1, h2, h3, h4, h5] at h
  | some contributors =>
  cases h6 : getCommitsData env (parseIdentifier repository).1
      (parseIdentifier repository).2 with
  | error e =>
    simp only [h1, h2, h3, h4, h5, h6, Option.some.injEq, Except.error.injEq] at h
    exact Or.inr (Or.inr (Or.inr (Or.inr (by rw [h]))))
  | ok commitsData => simp [h1, h2, h3, h4, h5, h6] at h

/-- C7, amended: parsing `owner/name`, where neither part holds a `/`, yields that owner
and that name, empty or not; an identifier without `/` yields itself as owner and an
undefined name. The parse step refuses nothing: for every identifier, `getData` returns
the report whenever the metadata fetch, the issue, release and language steps, the
contributor count and the commit step succeed on the parsed pair, and when `getData` fails
its message is the prefix followed by the message with which one of those steps failed on
the parsed pair. -/
theorem parseIdentifier_splits (owner name identifier : String)
    (hOwner : '/' ∉ owner.data) (hName : '/' ∉ name.data)
    (hIdentifier : '/' ∉ identifier.data) :
    parseIdentifier (owner ++ "/" ++ name) = (owner, some name)
    ∧ parseIdentifier identifier = (identifier, none)
    ∧ (∀ {κ : Type} (env : Env κ) (fuel : Nat) (repository : String) (repoData : RepoData)
        (issues : List IssueSummary) (releases : List ReleaseSummary)
        (languages : List LanguageEntry) (contributors : Nat) (commitsData : CommitsData),
        env.reposGet (parseIdentifier repository).1 (parseIdentifier repository).2
          = Except.ok repoData →
        getLatestOpenIssues env (parseIdentifier repository).1 (parseIdentifier repository).2
          = Except.ok issues →
        getLastReleases env (parseIdentifier repository).1 (parseIdentifier repository).2
          = Except.ok releases →
        getLanguages env (parseIdentifier repository).1 (parseIdentifier repository).2
          = Except.ok languages →
        getContributorsCount
          (env.listContributors (parseIdentifier repository).1 (parseIdentifier repository).2)
          fuel = some contributors →
        getCommitsData env (parseIdentifier repository).1 (parseIdentifier repository).2
          = Except.ok commitsData →
        getData env fuel (QueryValue.str repository) = some (Except.ok
          { repoName := repoData.name
            description := repoData.description
            stars := repoData.stargazers_count
            forks := repoData.forks_count
            created_at := repoData.created_at
            updated_at := repoData.updated_at
            homepage := repoData.homepage
            latest_open_issues := issues
            releases := releases
            languages := languages
            contributors := contributors
            latest_release := releases.head?.map (fun r => r.release)
            commits_per_day := commitsData.commitsPerDay
            top_contributors := commitsData.topContributors
            topic_interest :=
              getGoogleTrendsData env.parseInt
                (env.interestOverTime (parseIdentifier repository).2) }))
    ∧ ∀ {κ : Type} (env : Env κ) (fuel : Nat) (repository message : String),
        getData env fuel (QueryValue.str repository) = some (Except.error message) →
        ∃ m, message = "Failed to fetch repository data: " ++ m
          ∧ (env.reposGet (parseIdentifier repository).1 (parseIdentifier repository).2
              = Except.error m
            ∨ getLatestOpenIssues env (parseIdentifier repository).1
                (parseIdentifier repository).2 = Except.error m
            ∨ getLastReleases env (parseIdentifier repository).1
                (parseIdentifier repository).2 = Except.error m
            ∨ getLanguages env (parseIdentifier repository).1
                (parseIdentifier repository).2 = Except.error m
            ∨ getCommitsData env (parseIdentifier repository).1
                (parseIdentifier repository).2 = Except.error m) := by
  refine ⟨?_, ?_, ?_, ?_⟩
  · have hd : (owner ++ "/" ++ name).data = owner.data ++ '/' :: name.data := by
      simp [String.data_append]
    unfold parseIdentifier
    rw [hd, splitChars_append_sep '/' name.data owner.data hOwner,
      splitChars_of_not_mem '/' name.data hName]
  · unfold parseIdentifier
    rw [splitChars_of_not_mem '/' identifier.data hIdentifier]
  · intro κ env fuel repository repoData issues releases languages contributors commitsData
      h1 h2 h3 h4 h5 h6
    simp [getData, getDataTry, h1, h2, h3, h4, h5, h6]
  · intro κ env fuel repository message h
    unfold getData at h
    simp only at h
    cases ht : getDataTry env fuel repository with
    | none => simp [ht] at h
    | some result =>
      cases result with
      | error m =>
        simp only [ht, Option.some.injEq, Except.error.injEq] at h
        exact ⟨m, h.symm, getDataTry_error env fuel repository m ht⟩
      | ok report => simp [ht] at h

theorem parseIdentifier_splits_witness :
    parseIdentifier ("octocat" ++ "/" ++ "hello") = ("octocat", some "hello")
    ∧ parseIdentifier "octocat" = ("octocat", none)
    ∧ ∃ report, getData (echoEnv [] (TrendsOutcome.failure "timeout")) 2
        (QueryValue.str "/") = some (Except.ok report) :=
  have h := parseIdentifier_splits "octocat" "hello" "octocat"
    (by decide) (by decide) (by decide)
  ⟨h.1, h.2.1, _, h.2.2.1 (echoEnv [] (TrendsOutcome.failure "timeout")) 2 "/"
    { name := "", description := some "", stargazers_count := 0, forks_count := 0,
      created_at := "", updated_at := "", homepage := none } [] [] [] 137
    { commitsPerDay := [], topContributors := [] } rfl rfl rfl rfl (by decide) rfl⟩

end GithubTracks
